import Mathlib

/-!
Shallow embedding of the trade-simulation core of the meme-bot repository:
the backtest engine (src/backtest/engine.py, src/backtest/models.py) and the
paper trader (src/app/paper_trader.py).  All money, price and market-cap
arithmetic is over ℚ; timestamps are minutes (ℤ for the backtest clock,
ℚ for the paper trader's wall-clock durations).
-/

namespace MemeBot

/-- Position status, mirroring the `status` string field ("OPEN"/"CLOSED"). -/
inductive Status
  | OPEN
  | CLOSED
deriving DecidableEq, Repr

/-- Exit reasons used by both engines. -/
inductive ExitReason
  | STOP_LOSS
  | TIME_EXIT
  | END_OF_DATA
  | STOP_LOSS_30_PCT
  | TIME_EXIT_STAGNANT
deriving DecidableEq, Repr

/-- backtest/models.py `Signal`. -/
structure SignalB where
  token_address : String
  symbol : String
  signal_time : ℤ
  signal_score : ℚ
  price_at_signal : ℚ
deriving DecidableEq, Repr

/-- backtest/models.py `Trade`. -/
structure TradeB where
  token_address : String
  entry_price : ℚ
  entry_time : ℤ
  position_size_usd : ℚ
  entry_score : ℚ
  current_units : ℚ
  realized_pnl : ℚ
  status : Status
  ath_price : ℚ
  stop_loss_price : ℚ
  tp1_hit : Bool
  tp2_hit : Bool
  tp3_hit : Bool
  exit_reason : Option ExitReason
  exit_time : Option ℤ
deriving DecidableEq, Repr

/-- Result of evaluating exit rules on one trade at one tick: the updated
trade, total sale proceeds credited to capital, and total units sold. -/
structure SellOut where
  trade : TradeB
  proceeds : ℚ
  sold : ℚ
deriving DecidableEq, Repr

/-- engine.py lines 164-166: update ATH. -/
def updateAthB (t : TradeB) (p : ℚ) : TradeB :=
  if p > t.ath_price then { t with ath_price := p } else t

/-- engine.py lines 171-179: after 15 minutes, tighten the stop to the
-30% hard floor unless the current stop is already tighter. -/
def hardFloorB (t : TradeB) (minutes_in : ℤ) : TradeB :=
  if minutes_in > 15 then
    let hard_stop := t.entry_price * (70/100)
    if t.stop_loss_price > hard_stop then t
    else { t with stop_loss_price := hard_stop }
  else t

/-- engine.py lines 181-186: trailing stop once ATH ROI reaches +40%. -/
def trailingB (t : TradeB) : TradeB :=
  let roi_ath := (t.ath_price - t.entry_price) / t.entry_price
  if roi_ath ≥ 40/100 then
    let trail_stop := t.ath_price * (1 - 35/100)
    if trail_stop > t.stop_loss_price then { t with stop_loss_price := trail_stop }
    else t
  else t

/-- engine.py `_close_trade`: sell all remaining units. -/
def closeTradeB (t : TradeB) (price : ℚ) (time : ℤ) (reason : ExitReason) : SellOut :=
  let proceeds := t.current_units * price
  { trade := { t with
      realized_pnl := t.realized_pnl + (proceeds - t.current_units * t.entry_price)
      current_units := 0
      status := Status.CLOSED
      exit_reason := some reason
      exit_time := some time }
    proceeds := proceeds
    sold := t.current_units }

/-- engine.py `_partial_close`: sell a percentage of the INITIAL units,
capped at what is still held. -/
def partialCloseB (t : TradeB) (pct_of_initial price : ℚ) : SellOut :=
  let initial_units := t.position_size_usd / t.entry_price
  let units_to_sell0 := initial_units * pct_of_initial
  let units_to_sell := if units_to_sell0 > t.current_units then t.current_units else units_to_sell0
  let proceeds := units_to_sell * price
  { trade := { t with
      current_units := t.current_units - units_to_sell
      realized_pnl := t.realized_pnl + (proceeds - units_to_sell * t.entry_price) }
    proceeds := proceeds
    sold := units_to_sell }

/-- engine.py lines 196-201: TP1 at +40% sells 50% of initial and moves the
stop to at least entry. -/
def tp1StepB (t : TradeB) (roi p : ℚ) : SellOut :=
  if roi ≥ 40/100 ∧ t.tp1_hit = false then
    let o := partialCloseB t (50/100) p
    { o with trade := { o.trade with
        tp1_hit := true
        stop_loss_price := max o.trade.stop_loss_price o.trade.entry_price } }
  else { trade := t, proceeds := 0, sold := 0 }

/-- engine.py lines 203-206: TP2 at +100% sells 25% of initial. -/
def tp2StepB (t : TradeB) (roi p : ℚ) : SellOut :=
  if roi ≥ 1 ∧ t.tp2_hit = false then
    let o := partialCloseB t (25/100) p
    { o with trade := { o.trade with tp2_hit := true } }
  else { trade := t, proceeds := 0, sold := 0 }

/-- engine.py lines 208-214: TP3 at +200% sells 15% of initial. -/
def tp3StepB (t : TradeB) (roi p : ℚ) : SellOut :=
  if roi ≥ 2 ∧ t.tp3_hit = false then
    let o := partialCloseB t (15/100) p
    { o with trade := { o.trade with tp3_hit := true } }
  else { trade := t, proceeds := 0, sold := 0 }

/-- engine.py `_update_trades` body for one trade once a price sample is
found (lines 164-221): ATH, stop updates, stop check, take-profit ladder,
time exit. -/
def evalTradeB (t0 : TradeB) (p : ℚ) (now : ℤ) : SellOut :=
  let minutes_in := now - t0.entry_time
  let t1 := trailingB (hardFloorB (updateAthB t0 p) minutes_in)
  if p ≤ t1.stop_loss_price then closeTradeB t1 p now ExitReason.STOP_LOSS
  else
    let roi := (p - t1.entry_price) / t1.entry_price
    let o1 := tp1StepB t1 roi p
    let o2 := tp2StepB o1.trade roi p
    let o3 := tp3StepB o2.trade roi p
    let pr := o1.proceeds + o2.proceeds + o3.proceeds
    let sd := o1.sold + o2.sold + o3.sold
    if minutes_in ≥ 90 ∧ (-(10/100) ≤ roi ∧ roi ≤ 20/100) then
      let c := closeTradeB o3.trade p now ExitReason.TIME_EXIT
      { trade := c.trade, proceeds := pr + c.proceeds, sold := sd + c.sold }
    else { trade := o3.trade, proceeds := pr, sold := sd }

/-- A price path: (timestamp, price) samples with a minute-resolution index,
standing in for one token's DataFrame. -/
abbrev PricePath : Type := List (ℤ × ℚ)

/-- The `price_data` dict: token address to price path. -/
abbrev PriceData : Type := List (String × PricePath)

/-- Lookup `price_data.get(token_address)`. -/
def findPath (pd : PriceData) (tok : String) : Option PricePath :=
  (List.find? (fun e => e.1 = tok) pd).map (·.2)

/-- Lookup `df.loc[current_time]` on the exact minute index, as an Option. -/
def priceAt (df : PricePath) (t : ℤ) : Option ℚ :=
  (List.find? (fun e => e.1 = t) df).map (·.2)

/-- Combined lookup used for mark-to-market: the token has a path and the
path has a sample at this minute. -/
def priceLookup (pd : PriceData) (tok : String) (t : ℤ) : Option ℚ :=
  (findPath pd tok).bind (fun df => priceAt df t)

/-- One row of `equity_curve`. -/
structure EquitySample where
  time : ℤ
  equity : ℚ
  capital : ℚ
deriving DecidableEq, Repr

/-- The mutable state of `BacktestEngine`.  `n_opened` counts appends to
`self.trades` (the all-trades log). -/
structure EngineState where
  capital : ℚ
  equity : ℚ
  daily_start_equity : ℚ
  current_day : Option ℤ
  daily_loss_limit_hit : Bool
  active_trades : List TradeB
  closed_trades : List TradeB
  equity_curve : List EquitySample
  n_opened : ℕ
deriving DecidableEq, Repr

/-- Constructor `BacktestEngine.__init__`. -/
def initB (initial_capital : ℚ) : EngineState :=
  { capital := initial_capital
    equity := initial_capital
    daily_start_equity := initial_capital
    current_day := none
    daily_loss_limit_hit := false
    active_trades := []
    closed_trades := []
    equity_curve := []
    n_opened := 0 }

/-- engine.py `_process_signal`: admission filters, sizing, entry. -/
def processSignalB (s : EngineState) (sig : SignalB) : EngineState × Option TradeB :=
  if sig.signal_score < 80 then (s, none)
  else if 4 ≤ s.active_trades.length then (s, none)
  else if s.daily_loss_limit_hit then (s, none)
  else
    let risk_pct : ℚ :=
      if sig.signal_score ≥ 90 then 25/1000
      else if sig.signal_score ≥ 85 then 20/1000
      else 15/1000
    let risk_amount := s.capital * risk_pct
    let initial_sl_pct : ℚ := 15/100
    let pos_size_usd0 := risk_amount / initial_sl_pct
    let pos_size_usd := if pos_size_usd0 > s.capital then s.capital else pos_size_usd0
    let units := pos_size_usd / sig.price_at_signal
    let trade : TradeB :=
      { token_address := sig.token_address
        entry_price := sig.price_at_signal
        entry_time := sig.signal_time
        position_size_usd := pos_size_usd
        entry_score := sig.signal_score
        current_units := units
        realized_pnl := 0
        status := Status.OPEN
        ath_price := sig.price_at_signal
        stop_loss_price := sig.price_at_signal * (1 - initial_sl_pct)
        tp1_hit := false
        tp2_hit := false
        tp3_hit := false
        exit_reason := none
        exit_time := none }
    ({ s with
        capital := s.capital - pos_size_usd
        active_trades := s.active_trades ++ [trade]
        n_opened := s.n_opened + 1 },
     some trade)

/-- Accumulator for the `for trade in list(self.active_trades)` loop of
`_update_trades`. -/
structure UTAcc where
  capital : ℚ
  active : List TradeB
  closed : List TradeB
  flag : Bool
deriving DecidableEq, Repr

/-- A trade "completes" an `_update_trades` iteration (reaches the daily-loss
check at the bottom of the loop body, i.e. no `continue` fired) when its
price sample exists and the evaluation leaves it open. -/
def completesB (pd : PriceData) (now : ℤ) (t : TradeB) : Bool :=
  match priceLookup pd t.token_address now with
  | some p => (evalTradeB t p now).trade.status = Status.OPEN
  | none => false

/-- One iteration of the `_update_trades` loop.  `dse`/`eq0` are
`self.daily_start_equity`/`self.equity`, which the loop never reassigns. -/
def updateOneTradeB (dse eq0 : ℚ) (now : ℤ) (pd : PriceData) (acc : UTAcc) (t : TradeB) :
    UTAcc :=
  match findPath pd t.token_address with
  | none => { acc with active := acc.active ++ [t] }
  | some df =>
    match priceAt df now with
    | some p =>
      let o := evalTradeB t p now
      if o.trade.status = Status.CLOSED then
        { acc with capital := acc.capital + o.proceeds, closed := acc.closed ++ [o.trade] }
      else
        let acc1 := { acc with
          capital := acc.capital + o.proceeds, active := acc.active ++ [o.trade] }
        if eq0 - dse < -(dse * (10/100)) then { acc1 with flag := true } else acc1
    | none =>
      match df.getLast? with
      | some last =>
        if now > last.1 then
          let o := closeTradeB t last.2 last.1 ExitReason.END_OF_DATA
          { acc with capital := acc.capital + o.proceeds, closed := acc.closed ++ [o.trade] }
        else { acc with active := acc.active ++ [t] }
      | none => { acc with active := acc.active ++ [t] }

/-- engine.py `_update_trades`. -/
def updateTradesB (s : EngineState) (now : ℤ) (pd : PriceData) : EngineState :=
  let acc := s.active_trades.foldl
    (updateOneTradeB s.daily_start_equity s.equity now pd)
    { capital := s.capital, active := [], closed := s.closed_trades,
      flag := s.daily_loss_limit_hit }
  { s with
      capital := acc.capital
      active_trades := acc.active
      closed_trades := acc.closed
      daily_loss_limit_hit := acc.flag }

/-- Day index of a minute timestamp (`current_time.date()`). -/
def dayOfB (t : ℤ) : ℤ := Int.ediv t 1440

/-- engine.py run, step 1: day rollover resets the daily risk budget. -/
def dayResetB (s : EngineState) (t : ℤ) : EngineState :=
  if s.current_day ≠ some (dayOfB t) then
    { s with
        current_day := some (dayOfB t)
        daily_start_equity := s.equity
        daily_loss_limit_hit := false }
  else s

/-- engine.py run, equity calculation: mark-to-market over active trades
that have a price sample at this minute; others contribute nothing. -/
def mtmB (trades : List TradeB) (t : ℤ) (pd : PriceData) : ℚ :=
  trades.foldl
    (fun acc tr =>
      match priceLookup pd tr.token_address t with
      | some p => acc + tr.current_units * p
      | none => acc) 0

/-- engine.py run, step 3: the inner while loop admitting every pending
signal with timestamp ≤ current step. -/
def admitSignalsB (s : EngineState) (sigs : List SignalB) (t : ℤ) :
    EngineState × List SignalB :=
  match sigs with
  | [] => (s, [])
  | sig :: rest =>
    if sig.signal_time ≤ t then admitSignalsB (processSignalB s sig).1 rest t
    else (s, sig :: rest)

/-- One iteration of the main event loop of engine.py `run` (steps 1-4),
without the time advance. -/
def stepB (s : EngineState) (t : ℤ) (pd : PriceData) (sigs : List SignalB) :
    EngineState × List SignalB :=
  let s1 := dayResetB s t
  let s2 := updateTradesB s1 t pd
  let s3 := { s2 with equity := s2.capital + mtmB s2.active_trades t pd }
  let a := admitSignalsB s3 sigs t
  ({ a.1 with equity_curve := a.1.equity_curve ++
      [{ time := t, equity := a.1.equity, capital := a.1.capital }] },
   a.2)

/-- The time advance at the bottom of the loop: one minute, then the
flat-period jump optimization. -/
def nextTimeB (s : EngineState) (sigs : List SignalB) (t : ℤ) : ℤ :=
  let t1 := t + 1
  if s.active_trades.isEmpty then
    match sigs with
    | sig :: _ =>
      if sig.signal_time > t1 then
        let jump_to := sig.signal_time - 1
        if jump_to > t1 then jump_to else t1
      else t1
    | [] => t1
  else t1

/-- The main event loop of engine.py `run`, fuelled. -/
def runAuxB : ℕ → EngineState → List SignalB → ℤ → ℤ → PriceData → EngineState
  | 0, s, _, _, _, _ => s
  | fuel + 1, s, sigs, t, maxT, pd =>
    if t > maxT then s
    else
      let r := stepB s t pd sigs
      runAuxB fuel r.1 r.2 (nextTimeB r.1 r.2 t) maxT pd

/-- Stable insertion preserving arrival order among equal timestamps,
mirroring Python's stable `signals.sort(key=lambda x: x.signal_time)`. -/
def insertByTime (sig : SignalB) : List SignalB → List SignalB
  | [] => [sig]
  | x :: xs =>
    if x.signal_time ≤ sig.signal_time then x :: insertByTime sig xs
    else sig :: x :: xs

/-- Stable sort of the signal list by signal_time. -/
def sortSignals (sigs : List SignalB) : List SignalB :=
  sigs.foldl (fun acc sig => insertByTime sig acc) []

/-- All timestamps across all price paths. -/
def allTimesB (pd : PriceData) : List ℤ :=
  pd.foldl (fun acc e => acc ++ e.2.map (·.1)) []

/-- engine.py `run`: sort signals, find the time range, loop.  Returns
`none` when there is no price data (the Python `return` with no result). -/
def runB (initial_capital : ℚ) (signals : List SignalB) (pd : PriceData) :
    Option EngineState :=
  match allTimesB pd with
  | [] => none
  | t0 :: ts =>
    let minT := ts.foldl min t0
    let maxT := ts.foldl max t0
    some (runAuxB (maxT - minT + 1).toNat (initB initial_capital)
      (sortSignals signals) minT maxT pd)

/-- paper_trader.py `PaperTrade`. -/
structure TradeP where
  token_address : String
  symbol : String
  entry_mc : ℚ
  entry_price_proxy : ℚ
  entry_time : ℚ
  position_size_usd : ℚ
  initial_units : ℚ
  current_units : ℚ
  base_potential : ℚ
  peak_mc : ℚ
  status : Status
  tp_levels_hit : List String
  realized_pnl : ℚ
  exit_reason : Option ExitReason
  exit_time : Option ℚ
deriving DecidableEq, Repr

/-- Result of one paper-trade evaluation, as for the backtest. -/
structure SellOutP where
  trade : TradeP
  proceeds : ℚ
  sold : ℚ
deriving DecidableEq, Repr

/-- The mutable state of `PaperTrader` (`max_trades = 4` is fixed). -/
structure PaperState where
  capital : ℚ
  active_trades : List TradeP
  closed_trades : List TradeP
  n_opened : ℕ
deriving DecidableEq, Repr

/-- Constructor `PaperTrader.__init__`. -/
def initP (initial_capital : ℚ) : PaperState :=
  { capital := initial_capital, active_trades := [], closed_trades := [], n_opened := 0 }

/-- The fields of the DexScreener pair dict that `process_signal` reads. -/
structure SignalP where
  token_address : String
  symbol : String
  price_usd : ℚ
  mc : ℚ
deriving DecidableEq, Repr

/-- paper_trader.py `process_signal` (`now` is `datetime.utcnow()`). -/
def processSignalP (s : PaperState) (sig : SignalP) (now : ℚ) :
    PaperState × Option TradeP :=
  if 4 ≤ s.active_trades.length then (s, none)
  else if s.capital ≤ 0 then (s, none)
  else
    let position_size := s.capital * (5/100)
    let units := if sig.price_usd ≠ 0 then position_size / sig.price_usd else 0
    let trade : TradeP :=
      { token_address := sig.token_address
        symbol := sig.symbol
        entry_mc := sig.mc
        entry_price_proxy := sig.price_usd
        entry_time := now
        position_size_usd := position_size
        initial_units := units
        current_units := units
        base_potential := 2
        peak_mc := sig.mc
        status := Status.OPEN
        tp_levels_hit := []
        realized_pnl := 0
        exit_reason := none
        exit_time := none }
    ({ s with
        capital := s.capital - position_size
        active_trades := s.active_trades ++ [trade]
        n_opened := s.n_opened + 1 },
     some trade)

/-- paper_trader.py `_close_trade`: sell everything at the market-cap-scaled
price proxy. -/
def closeTradeP (t : TradeP) (current_mc now : ℚ) (reason : ExitReason) : SellOutP :=
  let exit_price_proxy := t.entry_price_proxy * (current_mc / t.entry_mc)
  let proceeds := t.current_units * exit_price_proxy
  { trade := { t with
      realized_pnl := t.realized_pnl + (proceeds - t.current_units * t.entry_price_proxy)
      current_units := 0
      status := Status.CLOSED
      exit_reason := some reason
      exit_time := some now }
    proceeds := proceeds
    sold := t.current_units }

/-- paper_trader.py `_partial_close`: sell a fraction of the stored
`initial_units`, capped at the current holding. -/
def partialCloseP (t : TradeP) (pct_to_sell current_mc : ℚ) : SellOutP :=
  let units_to_sell0 := t.initial_units * pct_to_sell
  let units_to_sell := if units_to_sell0 > t.current_units then t.current_units else units_to_sell0
  let exit_price_proxy := t.entry_price_proxy * (current_mc / t.entry_mc)
  let proceeds := units_to_sell * exit_price_proxy
  { trade := { t with
      realized_pnl := t.realized_pnl + (proceeds - units_to_sell * t.entry_price_proxy)
      current_units := t.current_units - units_to_sell }
    proceeds := proceeds
    sold := units_to_sell }

/-- One paper take-profit tier: threshold on potential used, sell fraction,
level label.  Applied only when the label is not in `tp_levels_hit`. -/
def tpStepP (t : TradeP) (pct_used thr frac current_mc : ℚ) (label : String) : SellOutP :=
  if pct_used ≥ thr ∧ ¬ label ∈ t.tp_levels_hit then
    let o := partialCloseP t frac current_mc
    { o with trade := { o.trade with tp_levels_hit := o.trade.tp_levels_hit ++ [label] } }
  else { trade := t, proceeds := 0, sold := 0 }

/-- paper_trader.py lines 131-133: update peak market cap. -/
def peakUpdateP (t : TradeP) (current_mc : ℚ) : TradeP :=
  if current_mc > t.peak_mc then { t with peak_mc := current_mc } else t

/-- paper_trader.py lines 152-156: potential used, normalized to the target
implied by `base_potential`. -/
def pctUsedP (t : TradeP) (current_mc : ℚ) : ℚ :=
  if t.base_potential ≤ 1 then 0
  else (current_mc - t.entry_mc) / (t.entry_mc * t.base_potential - t.entry_mc)

/-- paper_trader.py line 160: drop from entry. -/
def lossPctP (t : TradeP) (current_mc : ℚ) : ℚ :=
  (t.entry_mc - current_mc) / t.entry_mc

/-- paper_trader.py `update_trades` body for one trade once a nonzero
market-cap sample is found: peak, potential used, 30% stop, time exit,
take-profit ladder. -/
def evalTradeP (t0 : TradeP) (current_mc now : ℚ) : SellOutP :=
  let t := peakUpdateP t0 current_mc
  let pct_used := pctUsedP t current_mc
  let loss_pct := lossPctP t current_mc
  if loss_pct ≥ 30/100 then closeTradeP t current_mc now ExitReason.STOP_LOSS_30_PCT
  else
    let duration_mins := now - t.entry_time
    if duration_mins > 90 ∧ pct_used < 30/100 then
      closeTradeP t current_mc now ExitReason.TIME_EXIT_STAGNANT
    else
      let o1 := tpStepP t pct_used (30/100) (20/100) current_mc "30%"
      let o2 := tpStepP o1.trade pct_used (50/100) (25/100) current_mc "50%"
      let o3 := tpStepP o2.trade pct_used (70/100) (30/100) current_mc "70%"
      { trade := o3.trade
        proceeds := o1.proceeds + o2.proceeds + o3.proceeds
        sold := o1.sold + o2.sold + o3.sold }

/-- The `current_data_map` argument of `update_trades`. -/
abbrev McMap : Type := List (String × ℚ)

/-- Lookup `current_data_map.get(trade.token_address)` with Python truthiness:
a missing key or a zero value skips the trade. -/
def mcLookup (mp : McMap) (tok : String) : Option ℚ :=
  match (List.find? (fun e => e.1 = tok) mp).map (·.2) with
  | some v => if v = 0 then none else some v
  | none => none

/-- One iteration of the `update_trades` loop over `list(self.active_trades)`. -/
def updateOneTradeP (mp : McMap) (now : ℚ) (acc : PaperState) (t : TradeP) : PaperState :=
  match mcLookup mp t.token_address with
  | none => { acc with active_trades := acc.active_trades ++ [t] }
  | some mc =>
    let o := evalTradeP t mc now
    if o.trade.status = Status.CLOSED then
      { acc with capital := acc.capital + o.proceeds,
                 closed_trades := acc.closed_trades ++ [o.trade] }
    else
      { acc with capital := acc.capital + o.proceeds,
                 active_trades := acc.active_trades ++ [o.trade] }

/-- paper_trader.py `update_trades`. -/
def updateTradesP (s : PaperState) (mp : McMap) (now : ℚ) : PaperState :=
  s.active_trades.foldl (updateOneTradeP mp now) { s with active_trades := [] }

/-- Units a freshly opened backtest position holds, recomputed by
`_partial_close` as `position_size_usd / entry_price`. -/
def initialUnitsB (t : TradeB) : ℚ := t.position_size_usd / t.entry_price

section TradeLemmasB

variable (t : TradeB) (p now : ℚ) (m : ℤ)

theorem updateAthB_entry : (updateAthB t p).entry_price = t.entry_price := by
  unfold updateAthB; split_ifs <;> rfl

theorem updateAthB_stop : (updateAthB t p).stop_loss_price = t.stop_loss_price := by
  unfold updateAthB; split_ifs <;> rfl

theorem updateAthB_units : (updateAthB t p).current_units = t.current_units := by
  unfold updateAthB; split_ifs <;> rfl

theorem updateAthB_size : (updateAthB t p).position_size_usd = t.position_size_usd := by
  unfold updateAthB; split_ifs <;> rfl

theorem updateAthB_status : (updateAthB t p).status = t.status := by
  unfold updateAthB; split_ifs <;> rfl

theorem updateAthB_time : (updateAthB t p).entry_time = t.entry_time := by
  unfold updateAthB; split_ifs <;> rfl

theorem updateAthB_tp1 : (updateAthB t p).tp1_hit = t.tp1_hit := by
  unfold updateAthB; split_ifs <;> rfl

theorem updateAthB_ath_ge : p ≤ (updateAthB t p).ath_price := by
  unfold updateAthB; split_ifs with h
  · exact le_refl p
  · exact not_lt.mp h

theorem updateAthB_ath_ge_old : t.ath_price ≤ (updateAthB t p).ath_price := by
  unfold updateAthB; split_ifs with h
  · exact le_of_lt h
  · exact le_refl _

theorem updateAthB_of_le (h : p ≤ t.ath_price) : updateAthB t p = t := by
  unfold updateAthB
  rw [if_neg (not_lt.mpr h)]

theorem hardFloorB_entry (mi : ℤ) : (hardFloorB t mi).entry_price = t.entry_price := by
  unfold hardFloorB; dsimp only; split_ifs <;> rfl

theorem hardFloorB_units (mi : ℤ) : (hardFloorB t mi).current_units = t.current_units := by
  unfold hardFloorB; dsimp only; split_ifs <;> rfl

theorem hardFloorB_size (mi : ℤ) :
    (hardFloorB t mi).position_size_usd = t.position_size_usd := by
  unfold hardFloorB; dsimp only; split_ifs <;> rfl

theorem hardFloorB_status (mi : ℤ) : (hardFloorB t mi).status = t.status := by
  unfold hardFloorB; dsimp only; split_ifs <;> rfl

theorem hardFloorB_time (mi : ℤ) : (hardFloorB t mi).entry_time = t.entry_time := by
  unfold hardFloorB; dsimp only; split_ifs <;> rfl

theorem hardFloorB_ath (mi : ℤ) : (hardFloorB t mi).ath_price = t.ath_price := by
  unfold hardFloorB; dsimp only; split_ifs <;> rfl

theorem hardFloorB_tp1 (mi : ℤ) : (hardFloorB t mi).tp1_hit = t.tp1_hit := by
  unfold hardFloorB; dsimp only; split_ifs <;> rfl

theorem hardFloorB_stop_ge (mi : ℤ) :
    t.stop_loss_price ≤ (hardFloorB t mi).stop_loss_price := by
  unfold hardFloorB; dsimp only; split_ifs with h1 h2
  · exact le_refl _
  · exact not_lt.mp h2
  · exact le_refl _

/-- After the hard-floor phase runs (more than 15 minutes in), the stop is at
least 70% of entry. -/
theorem hardFloorB_stop_floor (mi : ℤ) (h : mi > 15) :
    t.entry_price * (70/100) ≤ (hardFloorB t mi).stop_loss_price := by
  unfold hardFloorB; dsimp only
  rw [if_pos h]
  split_ifs with h2
  · exact le_of_lt h2
  · exact le_refl _

/-- Replacing the stop with its current value is the identity. -/
theorem TradeB_set_stop_self (v : ℚ) (h : v = t.stop_loss_price) :
    { t with stop_loss_price := v } = t := by
  cases t
  simp only at h
  simp [h]

/-- The hard floor never changes a trade whose stop is already at or above
70% of entry. -/
theorem hardFloorB_eq_self (mi : ℤ) (h : t.entry_price * (70/100) ≤ t.stop_loss_price) :
    hardFloorB t mi = t := by
  unfold hardFloorB; dsimp only; split_ifs with h1 h2
  · rfl
  · exact TradeB_set_stop_self t _ (le_antisymm h (not_lt.mp h2))
  · rfl

theorem trailingB_entry : (trailingB t).entry_price = t.entry_price := by
  unfold trailingB; dsimp only; split_ifs <;> rfl

theorem trailingB_units : (trailingB t).current_units = t.current_units := by
  unfold trailingB; dsimp only; split_ifs <;> rfl

theorem trailingB_size : (trailingB t).position_size_usd = t.position_size_usd := by
  unfold trailingB; dsimp only; split_ifs <;> rfl

theorem trailingB_status : (trailingB t).status = t.status := by
  unfold trailingB; dsimp only; split_ifs <;> rfl

theorem trailingB_time : (trailingB t).entry_time = t.entry_time := by
  unfold trailingB; dsimp only; split_ifs <;> rfl

theorem trailingB_ath : (trailingB t).ath_price = t.ath_price := by
  unfold trailingB; dsimp only; split_ifs <;> rfl

theorem trailingB_tp1 : (trailingB t).tp1_hit = t.tp1_hit := by
  unfold trailingB; dsimp only; split_ifs <;> rfl

theorem trailingB_stop_ge : t.stop_loss_price ≤ (trailingB t).stop_loss_price := by
  unfold trailingB; dsimp only; split_ifs with h1 h2
  · exact le_of_lt h2
  · exact le_refl _
  · exact le_refl _

/-- Once the trailing condition holds, the stop ends at or above the trail. -/
theorem trailingB_stop_trail
    (h : (t.ath_price - t.entry_price) / t.entry_price ≥ 40/100) :
    t.ath_price * (1 - 35/100) ≤ (trailingB t).stop_loss_price := by
  unfold trailingB; dsimp only
  rw [if_pos h]
  split_ifs with h2
  · exact le_refl _
  · exact not_lt.mp h2

/-- The trailing update is the identity when the trail is not above the stop. -/
theorem trailingB_eq_self
    (h : (t.ath_price - t.entry_price) / t.entry_price ≥ 40/100 →
      t.ath_price * (1 - 35/100) ≤ t.stop_loss_price) :
    trailingB t = t := by
  unfold trailingB; dsimp only; split_ifs with h1 h2
  · exact absurd h2 (not_lt.mpr (h h1))
  · rfl
  · rfl

theorem partialCloseB_entry (pct : ℚ) :
    (partialCloseB t pct p).trade.entry_price = t.entry_price := rfl

theorem partialCloseB_time (pct : ℚ) :
    (partialCloseB t pct p).trade.entry_time = t.entry_time := rfl

theorem partialCloseB_size (pct : ℚ) :
    (partialCloseB t pct p).trade.position_size_usd = t.position_size_usd := rfl

theorem partialCloseB_status (pct : ℚ) :
    (partialCloseB t pct p).trade.status = t.status := rfl

theorem partialCloseB_ath (pct : ℚ) :
    (partialCloseB t pct p).trade.ath_price = t.ath_price := rfl

theorem partialCloseB_stop (pct : ℚ) :
    (partialCloseB t pct p).trade.stop_loss_price = t.stop_loss_price := rfl

theorem partialCloseB_tp1 (pct : ℚ) :
    (partialCloseB t pct p).trade.tp1_hit = t.tp1_hit := rfl

theorem partialCloseB_tp2 (pct : ℚ) :
    (partialCloseB t pct p).trade.tp2_hit = t.tp2_hit := rfl

theorem partialCloseB_tp3 (pct : ℚ) :
    (partialCloseB t pct p).trade.tp3_hit = t.tp3_hit := rfl

/-- A partial close sells `pct` of the initial units, capped at the units
still held — exactly the quantity subtracted from the holding. -/
theorem partialCloseB_sold (pct : ℚ) :
    (partialCloseB t pct p).sold =
      if initialUnitsB t * pct > t.current_units then t.current_units
      else initialUnitsB t * pct := rfl

theorem partialCloseB_units (pct : ℚ) :
    (partialCloseB t pct p).trade.current_units =
      t.current_units - (partialCloseB t pct p).sold := rfl

theorem partialCloseB_proceeds (pct : ℚ) :
    (partialCloseB t pct p).proceeds = (partialCloseB t pct p).sold * p := rfl

theorem partialCloseB_sold_le (pct : ℚ) :
    (partialCloseB t pct p).sold ≤ t.current_units := by
  rw [partialCloseB_sold]
  split_ifs with h
  · exact le_refl _
  · exact not_lt.mp h

theorem partialCloseB_sold_nonneg (pct : ℚ)
    (hu : 0 ≤ t.current_units) (hs : 0 ≤ t.position_size_usd)
    (he : 0 ≤ t.entry_price) (hp : 0 ≤ pct) :
    0 ≤ (partialCloseB t pct p).sold := by
  rw [partialCloseB_sold]
  split_ifs with h
  · exact hu
  · exact mul_nonneg (div_nonneg hs he) hp

theorem closeTradeB_status (time : ℤ) (r : ExitReason) :
    (closeTradeB t p time r).trade.status = Status.CLOSED := rfl

theorem closeTradeB_units (time : ℤ) (r : ExitReason) :
    (closeTradeB t p time r).trade.current_units = 0 := rfl

theorem closeTradeB_sold (time : ℤ) (r : ExitReason) :
    (closeTradeB t p time r).sold = t.current_units := rfl

theorem closeTradeB_proceeds (time : ℤ) (r : ExitReason) :
    (closeTradeB t p time r).proceeds = t.current_units * p := rfl

theorem closeTradeB_entry (time : ℤ) (r : ExitReason) :
    (closeTradeB t p time r).trade.entry_price = t.entry_price := rfl

theorem closeTradeB_time (time : ℤ) (r : ExitReason) :
    (closeTradeB t p time r).trade.entry_time = t.entry_time := rfl

theorem closeTradeB_size (time : ℤ) (r : ExitReason) :
    (closeTradeB t p time r).trade.position_size_usd = t.position_size_usd := rfl

theorem closeTradeB_stop (time : ℤ) (r : ExitReason) :
    (closeTradeB t p time r).trade.stop_loss_price = t.stop_loss_price := rfl

theorem closeTradeB_reason (time : ℤ) (r : ExitReason) :
    (closeTradeB t p time r).trade.exit_reason = some r := rfl

end TradeLemmasB

section TpLemmasB

variable (t : TradeB) (roi p : ℚ)

theorem tp1StepB_entry : (tp1StepB t roi p).trade.entry_price = t.entry_price := by
  unfold tp1StepB; split_ifs <;> rfl

theorem tp1StepB_time : (tp1StepB t roi p).trade.entry_time = t.entry_time := by
  unfold tp1StepB; split_ifs <;> rfl

theorem tp1StepB_size :
    (tp1StepB t roi p).trade.position_size_usd = t.position_size_usd := by
  unfold tp1StepB; split_ifs <;> rfl

theorem tp1StepB_status : (tp1StepB t roi p).trade.status = t.status := by
  unfold tp1StepB; split_ifs <;> rfl

theorem tp1StepB_ath : (tp1StepB t roi p).trade.ath_price = t.ath_price := by
  unfold tp1StepB; split_ifs <;> rfl

theorem tp1StepB_tp2 : (tp1StepB t roi p).trade.tp2_hit = t.tp2_hit := by
  unfold tp1StepB; split_ifs <;> rfl

theorem tp1StepB_tp3 : (tp1StepB t roi p).trade.tp3_hit = t.tp3_hit := by
  unfold tp1StepB; split_ifs <;> rfl

theorem tp1StepB_stop_ge :
    t.stop_loss_price ≤ (tp1StepB t roi p).trade.stop_loss_price := by
  unfold tp1StepB; split_ifs with h
  · exact le_max_left _ _
  · exact le_refl _

theorem tp1StepB_units :
    (tp1StepB t roi p).trade.current_units =
      t.current_units - (tp1StepB t roi p).sold := by
  unfold tp1StepB; split_ifs with h
  · exact partialCloseB_units t p _
  · simp

/-- After the TP1 step, the flag is set whenever ROI reached the tier. -/
theorem tp1StepB_flag (h : roi ≥ 40/100) : (tp1StepB t roi p).trade.tp1_hit = true := by
  unfold tp1StepB; split_ifs with hc
  · rfl
  · rcases t.tp1_hit.eq_false_or_eq_true with ht | hf
    · exact ht
    · exact absurd ⟨h, hf⟩ hc

theorem tp1StepB_noop (h : roi ≥ 40/100 → t.tp1_hit = true) :
    tp1StepB t roi p = { trade := t, proceeds := 0, sold := 0 } := by
  unfold tp1StepB; split_ifs with hc
  · rw [h hc.1] at hc
    exact absurd hc.2 (by simp)
  · rfl

theorem tp2StepB_entry : (tp2StepB t roi p).trade.entry_price = t.entry_price := by
  unfold tp2StepB; split_ifs <;> rfl

theorem tp2StepB_time : (tp2StepB t roi p).trade.entry_time = t.entry_time := by
  unfold tp2StepB; split_ifs <;> rfl

theorem tp2StepB_size :
    (tp2StepB t roi p).trade.position_size_usd = t.position_size_usd := by
  unfold tp2StepB; split_ifs <;> rfl

theorem tp2StepB_status : (tp2StepB t roi p).trade.status = t.status := by
  unfold tp2StepB; split_ifs <;> rfl

theorem tp2StepB_ath : (tp2StepB t roi p).trade.ath_price = t.ath_price := by
  unfold tp2StepB; split_ifs <;> rfl

theorem tp2StepB_tp1 : (tp2StepB t roi p).trade.tp1_hit = t.tp1_hit := by
  unfold tp2StepB; split_ifs <;> rfl

theorem tp2StepB_tp3 : (tp2StepB t roi p).trade.tp3_hit = t.tp3_hit := by
  unfold tp2StepB; split_ifs <;> rfl

theorem tp2StepB_stop : (tp2StepB t roi p).trade.stop_loss_price = t.stop_loss_price := by
  unfold tp2StepB; split_ifs <;> rfl

theorem tp2StepB_units :
    (tp2StepB t roi p).trade.current_units =
      t.current_units - (tp2StepB t roi p).sold := by
  unfold tp2StepB; split_ifs with h
  · exact partialCloseB_units t p _
  · simp

theorem tp2StepB_flag (h : roi ≥ 1) : (tp2StepB t roi p).trade.tp2_hit = true := by
  unfold tp2StepB; split_ifs with hc
  · rfl
  · rcases t.tp2_hit.eq_false_or_eq_true with ht | hf
    · exact ht
    · exact absurd ⟨h, hf⟩ hc

theorem tp2StepB_noop (h : roi ≥ 1 → t.tp2_hit = true) :
    tp2StepB t roi p = { trade := t, proceeds := 0, sold := 0 } := by
  unfold tp2StepB; split_ifs with hc
  · rw [h hc.1] at hc
    exact absurd hc.2 (by simp)
  · rfl

theorem tp3StepB_entry : (tp3StepB t roi p).trade.entry_price = t.entry_price := by
  unfold tp3StepB; split_ifs <;> rfl

theorem tp3StepB_time : (tp3StepB t roi p).trade.entry_time = t.entry_time := by
  unfold tp3StepB; split_ifs <;> rfl

theorem tp3StepB_size :
    (tp3StepB t roi p).trade.position_size_usd = t.position_size_usd := by
  unfold tp3StepB; split_ifs <;> rfl

theorem tp3StepB_status : (tp3StepB t roi p).trade.status = t.status := by
  unfold tp3StepB; split_ifs <;> rfl

theorem tp3StepB_ath : (tp3StepB t roi p).trade.ath_price = t.ath_price := by
  unfold tp3StepB; split_ifs <;> rfl

theorem tp3StepB_tp1 : (tp3StepB t roi p).trade.tp1_hit = t.tp1_hit := by
  unfold tp3StepB; split_ifs <;> rfl

theorem tp3StepB_tp2 : (tp3StepB t roi p).trade.tp2_hit = t.tp2_hit := by
  unfold tp3StepB; split_ifs <;> rfl

theorem tp3StepB_stop : (tp3StepB t roi p).trade.stop_loss_price = t.stop_loss_price := by
  unfold tp3StepB; split_ifs <;> rfl

theorem tp3StepB_units :
    (tp3StepB t roi p).trade.current_units =
      t.current_units - (tp3StepB t roi p).sold := by
  unfold tp3StepB; split_ifs with h
  · exact partialCloseB_units t p _
  · simp

theorem tp3StepB_flag (h : roi ≥ 2) : (tp3StepB t roi p).trade.tp3_hit = true := by
  unfold tp3StepB; split_ifs with hc
  · rfl
  · rcases t.tp3_hit.eq_false_or_eq_true with ht | hf
    · exact ht
    · exact absurd ⟨h, hf⟩ hc

theorem tp3StepB_noop (h : roi ≥ 2 → t.tp3_hit = true) :
    tp3StepB t roi p = { trade := t, proceeds := 0, sold := 0 } := by
  unfold tp3StepB; split_ifs with hc
  · rw [h hc.1] at hc
    exact absurd hc.2 (by simp)
  · rfl

end TpLemmasB

/-- Nonnegativity invariant on a backtest trade: what position sizing
establishes and exits preserve. -/
def tradeInvB (t : TradeB) : Prop :=
  0 ≤ t.current_units ∧ 0 ≤ t.position_size_usd ∧ 0 ≤ t.entry_price

instance (t : TradeB) : Decidable (tradeInvB t) := by
  unfold tradeInvB; infer_instance

section EvalLemmasB

variable (t : TradeB) (p : ℚ) (n : ℤ)

theorem evalTradeB_entry : (evalTradeB t p n).trade.entry_price = t.entry_price := by
  unfold evalTradeB; dsimp only; split_ifs <;>
    simp [closeTradeB_entry, tp3StepB_entry, tp2StepB_entry, tp1StepB_entry,
      trailingB_entry, hardFloorB_entry, updateAthB_entry]

theorem evalTradeB_time : (evalTradeB t p n).trade.entry_time = t.entry_time := by
  unfold evalTradeB; dsimp only; split_ifs <;>
    simp [closeTradeB_time, tp3StepB_time, tp2StepB_time, tp1StepB_time,
      trailingB_time, hardFloorB_time, updateAthB_time]

theorem evalTradeB_size :
    (evalTradeB t p n).trade.position_size_usd = t.position_size_usd := by
  unfold evalTradeB; dsimp only; split_ifs <;>
    simp [closeTradeB_size, tp3StepB_size, tp2StepB_size, tp1StepB_size,
      trailingB_size, hardFloorB_size, updateAthB_size]

/-- The stop never decreases across one exit-rule evaluation. -/
theorem evalTradeB_stop_ge :
    t.stop_loss_price ≤ (evalTradeB t p n).trade.stop_loss_price := by
  have base : t.stop_loss_price ≤
      (trailingB (hardFloorB (updateAthB t p) (n - t.entry_time))).stop_loss_price := by
    calc t.stop_loss_price
        = (updateAthB t p).stop_loss_price := (updateAthB_stop t p).symm
      _ ≤ (hardFloorB (updateAthB t p) (n - t.entry_time)).stop_loss_price :=
          hardFloorB_stop_ge _ _
      _ ≤ _ := trailingB_stop_ge _
  unfold evalTradeB; dsimp only; split_ifs
  · rw [closeTradeB_stop]
    exact base
  · rw [closeTradeB_stop, tp3StepB_stop, tp2StepB_stop]
    exact le_trans base (tp1StepB_stop_ge _ _ _)
  · rw [tp3StepB_stop, tp2StepB_stop]
    exact le_trans base (tp1StepB_stop_ge _ _ _)

/-- Units after an evaluation are the old units minus what the evaluation
sold. -/
theorem evalTradeB_units :
    (evalTradeB t p n).trade.current_units = t.current_units - (evalTradeB t p n).sold := by
  have hu : (trailingB (hardFloorB (updateAthB t p) (n - t.entry_time))).current_units
      = t.current_units := by
    rw [trailingB_units, hardFloorB_units, updateAthB_units]
  unfold evalTradeB; dsimp only; split_ifs
  · rw [closeTradeB_units, closeTradeB_sold, hu]
    ring
  · rw [closeTradeB_units, closeTradeB_sold, tp3StepB_units, tp2StepB_units,
      tp1StepB_units, hu]
    ring
  · rw [tp3StepB_units, tp2StepB_units, tp1StepB_units, hu]
    ring

/-- If the evaluation reports the position closed, no units remain
(for a position that was open going in). -/
theorem evalTradeB_closed_units (hopen : t.status = Status.OPEN)
    (hclosed : (evalTradeB t p n).trade.status = Status.CLOSED) :
    (evalTradeB t p n).trade.current_units = 0 := by
  revert hclosed
  unfold evalTradeB; dsimp only; split_ifs <;> intro hclosed
  · exact closeTradeB_units _ _ _ _
  · exact closeTradeB_units _ _ _ _
  · exfalso
    rw [tp3StepB_status, tp2StepB_status, tp1StepB_status, trailingB_status,
      hardFloorB_status, updateAthB_status, hopen] at hclosed
    exact Status.noConfusion hclosed

/-- A status of OPEN is preserved verbatim by the open path, so a closed
output means a close fired or the input was already closed. -/
theorem evalTradeB_status_open (hopen : (evalTradeB t p n).trade.status = Status.OPEN) :
    t.status = Status.OPEN := by
  revert hopen
  unfold evalTradeB; dsimp only; split_ifs <;> intro hopen
  · exact absurd (closeTradeB_status _ _ _ _ ▸ hopen) (by simp)
  · exact absurd (closeTradeB_status _ _ _ _ ▸ hopen) (by simp)
  · rw [tp3StepB_status, tp2StepB_status, tp1StepB_status, trailingB_status,
      hardFloorB_status, updateAthB_status] at hopen
    exact hopen

theorem partialCloseB_inv (pct : ℚ) (h : tradeInvB t) (hpct : 0 ≤ pct) (hp : 0 ≤ p) :
    tradeInvB (partialCloseB t pct p).trade ∧
      0 ≤ (partialCloseB t pct p).proceeds ∧ 0 ≤ (partialCloseB t pct p).sold := by
  obtain ⟨hu, hs, he⟩ := h
  have hsold : 0 ≤ (partialCloseB t pct p).sold :=
    partialCloseB_sold_nonneg t p pct hu hs he hpct
  have hle : (partialCloseB t pct p).sold ≤ t.current_units := partialCloseB_sold_le t p pct
  refine ⟨⟨?_, ?_, ?_⟩, ?_, hsold⟩
  · rw [partialCloseB_units]
    linarith
  · rw [partialCloseB_size]; exact hs
  · rw [partialCloseB_entry]; exact he
  · rw [partialCloseB_proceeds]
    exact mul_nonneg hsold hp

theorem closeTradeB_inv (time : ℤ) (r : ExitReason) (h : tradeInvB t) (hp : 0 ≤ p) :
    tradeInvB (closeTradeB t p time r).trade ∧
      0 ≤ (closeTradeB t p time r).proceeds ∧ 0 ≤ (closeTradeB t p time r).sold := by
  obtain ⟨hu, hs, he⟩ := h
  refine ⟨⟨?_, ?_, ?_⟩, ?_, ?_⟩
  · rw [closeTradeB_units]
  · rw [closeTradeB_size]; exact hs
  · rw [closeTradeB_entry]; exact he
  · rw [closeTradeB_proceeds]
    exact mul_nonneg hu hp
  · rw [closeTradeB_sold]
    exact hu

theorem tp1StepB_inv (roi : ℚ) (h : tradeInvB t) (hp : 0 ≤ p) :
    tradeInvB (tp1StepB t roi p).trade ∧
      0 ≤ (tp1StepB t roi p).proceeds ∧ 0 ≤ (tp1StepB t roi p).sold := by
  unfold tp1StepB; split_ifs with hc
  · have := partialCloseB_inv t p (50/100) h (by norm_num) hp
    obtain ⟨⟨hu, hs, he⟩, hpr, hsd⟩ := this
    exact ⟨⟨hu, hs, he⟩, hpr, hsd⟩
  · exact ⟨h, le_refl 0, le_refl 0⟩

theorem tp2StepB_inv (roi : ℚ) (h : tradeInvB t) (hp : 0 ≤ p) :
    tradeInvB (tp2StepB t roi p).trade ∧
      0 ≤ (tp2StepB t roi p).proceeds ∧ 0 ≤ (tp2StepB t roi p).sold := by
  unfold tp2StepB; split_ifs with hc
  · have := partialCloseB_inv t p (25/100) h (by norm_num) hp
    obtain ⟨⟨hu, hs, he⟩, hpr, hsd⟩ := this
    exact ⟨⟨hu, hs, he⟩, hpr, hsd⟩
  · exact ⟨h, le_refl 0, le_refl 0⟩

theorem tp3StepB_inv (roi : ℚ) (h : tradeInvB t) (hp : 0 ≤ p) :
    tradeInvB (tp3StepB t roi p).trade ∧
      0 ≤ (tp3StepB t roi p).proceeds ∧ 0 ≤ (tp3StepB t roi p).sold := by
  unfold tp3StepB; split_ifs with hc
  · have := partialCloseB_inv t p (15/100) h (by norm_num) hp
    obtain ⟨⟨hu, hs, he⟩, hpr, hsd⟩ := this
    exact ⟨⟨hu, hs, he⟩, hpr, hsd⟩
  · exact ⟨h, le_refl 0, le_refl 0⟩

theorem trailingB_inv (h : tradeInvB t) : tradeInvB (trailingB t) := by
  obtain ⟨hu, hs, he⟩ := h
  exact ⟨trailingB_units t ▸ hu, trailingB_size t ▸ hs, trailingB_entry t ▸ he⟩

theorem hardFloorB_inv (mi : ℤ) (h : tradeInvB t) : tradeInvB (hardFloorB t mi) := by
  obtain ⟨hu, hs, he⟩ := h
  exact ⟨hardFloorB_units t mi ▸ hu, hardFloorB_size t mi ▸ hs,
    hardFloorB_entry t mi ▸ he⟩

theorem updateAthB_inv (h : tradeInvB t) : tradeInvB (updateAthB t p) := by
  obtain ⟨hu, hs, he⟩ := h
  exact ⟨updateAthB_units t p ▸ hu, updateAthB_size t p ▸ hs,
    updateAthB_entry t p ▸ he⟩

/-- One exit-rule evaluation keeps the nonnegativity invariant and only ever
credits a nonnegative amount. -/
theorem evalTradeB_inv (h : tradeInvB t) (hp : 0 ≤ p) :
    tradeInvB (evalTradeB t p n).trade ∧
      0 ≤ (evalTradeB t p n).proceeds ∧ 0 ≤ (evalTradeB t p n).sold := by
  have h1 : tradeInvB (trailingB (hardFloorB (updateAthB t p) (n - t.entry_time))) :=
    trailingB_inv _ (hardFloorB_inv _ _ (updateAthB_inv _ _ h))
  unfold evalTradeB; dsimp only; split_ifs
  · exact closeTradeB_inv _ _ _ _ h1 hp
  · obtain ⟨i1, pr1, sd1⟩ := tp1StepB_inv _ p _ h1 hp
    obtain ⟨i2, pr2, sd2⟩ := tp2StepB_inv _ p _ i1 hp
    obtain ⟨i3, pr3, sd3⟩ := tp3StepB_inv _ p _ i2 hp
    obtain ⟨ic, prc, sdc⟩ := closeTradeB_inv _ p n ExitReason.TIME_EXIT i3 hp
    exact ⟨ic, by positivity, by positivity⟩
  · obtain ⟨i1, pr1, sd1⟩ := tp1StepB_inv _ p _ h1 hp
    obtain ⟨i2, pr2, sd2⟩ := tp2StepB_inv _ p _ i1 hp
    obtain ⟨i3, pr3, sd3⟩ := tp3StepB_inv _ p _ i2 hp
    exact ⟨i3, by positivity, by positivity⟩

end EvalLemmasB

/-- A position's lifetime in the backtest: the engine evaluates the exit
rules once per tick while the position is active (closed positions are
removed from `active_trades` and never evaluated again).  Returns the final
trade together with the total units sold over the whole lifetime. -/
def lifetimeB : TradeB → List (ℚ × ℤ) → TradeB × ℚ
  | t, [] => (t, 0)
  | t, step :: rest =>
    if t.status = Status.OPEN then
      let o := evalTradeB t step.1 step.2
      let r := lifetimeB o.trade rest
      (r.1, o.sold + r.2)
    else lifetimeB t rest

theorem lifetimeB_stop_ge (t : TradeB) (steps : List (ℚ × ℤ)) :
    t.stop_loss_price ≤ (lifetimeB t steps).1.stop_loss_price := by
  induction steps generalizing t with
  | nil => exact le_refl _
  | cons step rest ih =>
    unfold lifetimeB
    split_ifs with h
    · exact le_trans (evalTradeB_stop_ge t step.1 step.2) (ih _)
    · exact ih t

theorem lifetimeB_entry (t : TradeB) (steps : List (ℚ × ℤ)) :
    (lifetimeB t steps).1.entry_price = t.entry_price := by
  induction steps generalizing t with
  | nil => rfl
  | cons step rest ih =>
    unfold lifetimeB
    split_ifs with h
    · rw [ih, evalTradeB_entry]
    · exact ih t

theorem lifetimeB_size (t : TradeB) (steps : List (ℚ × ℤ)) :
    (lifetimeB t steps).1.position_size_usd = t.position_size_usd := by
  induction steps generalizing t with
  | nil => rfl
  | cons step rest ih =>
    unfold lifetimeB
    split_ifs with h
    · rw [ih, evalTradeB_size]
    · exact ih t

/-- Unit conservation along a lifetime: remaining units plus everything sold
equals the units held at the start. -/
theorem lifetimeB_units (t : TradeB) (steps : List (ℚ × ℤ)) :
    (lifetimeB t steps).1.current_units + (lifetimeB t steps).2 = t.current_units := by
  induction steps generalizing t with
  | nil => simp [lifetimeB]
  | cons step rest ih =>
    unfold lifetimeB
    split_ifs with h
    · dsimp only
      have := ih (evalTradeB t step.1 step.2).trade
      rw [evalTradeB_units] at this
      linarith
    · exact ih t

/-- Once the lifetime ends with a CLOSED status, no units remain (for a
position that starts open). -/
theorem lifetimeB_closed_units (t : TradeB) (steps : List (ℚ × ℤ))
    (hinv : t.status = Status.CLOSED → t.current_units = 0) :
    (lifetimeB t steps).1.status = Status.CLOSED →
      (lifetimeB t steps).1.current_units = 0 := by
  induction steps generalizing t with
  | nil => exact hinv
  | cons step rest ih =>
    unfold lifetimeB
    split_ifs with h
    · dsimp only
      refine ih _ ?_
      intro hc
      exact evalTradeB_closed_units t step.1 step.2 h hc
    · exact ih t hinv

/-- The backtest stop-floor invariant of C10: while open, the stop is at
least 85% of entry (the initial stop set at entry). -/
def stopInvB (t : TradeB) : Prop :=
  t.entry_price * (85/100) ≤ t.stop_loss_price

instance (t : TradeB) : Decidable (stopInvB t) := by
  unfold stopInvB; infer_instance

theorem evalTradeB_stopInv (t : TradeB) (p : ℚ) (n : ℤ) (h : stopInvB t) :
    stopInvB (evalTradeB t p n).trade := by
  unfold stopInvB at h ⊢
  rw [evalTradeB_entry]
  exact le_trans h (evalTradeB_stop_ge t p n)

theorem lifetimeB_stopInv (t : TradeB) (steps : List (ℚ × ℤ)) (h : stopInvB t) :
    stopInvB (lifetimeB t steps).1 := by
  unfold stopInvB at h ⊢
  rw [lifetimeB_entry]
  exact le_trans h (lifetimeB_stop_ge t steps)

/-- Under the stop-floor invariant the post-15-minute hard-floor update
(towards 70% of entry) never modifies the trade. -/
theorem hardFloorB_noop_of_stopInv (t : TradeB) (mi : ℤ)
    (h : stopInvB t) (he : 0 < t.entry_price) :
    hardFloorB t mi = t := by
  apply hardFloorB_eq_self
  unfold stopInvB at h
  nlinarith

section PaperLemmas

variable (t : TradeP) (mc now : ℚ)

theorem peakUpdateP_entry_mc : (peakUpdateP t mc).entry_mc = t.entry_mc := by
  unfold peakUpdateP; split_ifs <;> rfl

theorem peakUpdateP_proxy : (peakUpdateP t mc).entry_price_proxy = t.entry_price_proxy := by
  unfold peakUpdateP; split_ifs <;> rfl

theorem peakUpdateP_time : (peakUpdateP t mc).entry_time = t.entry_time := by
  unfold peakUpdateP; split_ifs <;> rfl

theorem peakUpdateP_units : (peakUpdateP t mc).current_units = t.current_units := by
  unfold peakUpdateP; split_ifs <;> rfl

theorem peakUpdateP_initial : (peakUpdateP t mc).initial_units = t.initial_units := by
  unfold peakUpdateP; split_ifs <;> rfl

theorem peakUpdateP_base : (peakUpdateP t mc).base_potential = t.base_potential := by
  unfold peakUpdateP; split_ifs <;> rfl

theorem peakUpdateP_status : (peakUpdateP t mc).status = t.status := by
  unfold peakUpdateP; split_ifs <;> rfl

theorem peakUpdateP_levels : (peakUpdateP t mc).tp_levels_hit = t.tp_levels_hit := by
  unfold peakUpdateP; split_ifs <;> rfl

theorem peakUpdateP_peak_ge : mc ≤ (peakUpdateP t mc).peak_mc := by
  unfold peakUpdateP; split_ifs with h
  · exact le_refl mc
  · exact not_lt.mp h

theorem peakUpdateP_of_le (h : mc ≤ t.peak_mc) : peakUpdateP t mc = t := by
  unfold peakUpdateP
  rw [if_neg (not_lt.mpr h)]

theorem closeTradeP_status (r : ExitReason) :
    (closeTradeP t mc now r).trade.status = Status.CLOSED := rfl

theorem closeTradeP_units (r : ExitReason) :
    (closeTradeP t mc now r).trade.current_units = 0 := rfl

theorem closeTradeP_sold (r : ExitReason) :
    (closeTradeP t mc now r).sold = t.current_units := rfl

theorem closeTradeP_proceeds (r : ExitReason) :
    (closeTradeP t mc now r).proceeds =
      t.current_units * (t.entry_price_proxy * (mc / t.entry_mc)) := rfl

theorem closeTradeP_reason (r : ExitReason) :
    (closeTradeP t mc now r).trade.exit_reason = some r := rfl

theorem closeTradeP_initial (r : ExitReason) :
    (closeTradeP t mc now r).trade.initial_units = t.initial_units := rfl

theorem partialCloseP_sold (pct : ℚ) :
    (partialCloseP t pct mc).sold =
      if t.initial_units * pct > t.current_units then t.current_units
      else t.initial_units * pct := rfl

theorem partialCloseP_units (pct : ℚ) :
    (partialCloseP t pct mc).trade.current_units =
      t.current_units - (partialCloseP t pct mc).sold := rfl

theorem partialCloseP_proceeds (pct : ℚ) :
    (partialCloseP t pct mc).proceeds =
      (partialCloseP t pct mc).sold * (t.entry_price_proxy * (mc / t.entry_mc)) := rfl

theorem partialCloseP_status (pct : ℚ) :
    (partialCloseP t pct mc).trade.status = t.status := rfl

theorem partialCloseP_initial (pct : ℚ) :
    (partialCloseP t pct mc).trade.initial_units = t.initial_units := rfl

theorem partialCloseP_entry_mc (pct : ℚ) :
    (partialCloseP t pct mc).trade.entry_mc = t.entry_mc := rfl

theorem partialCloseP_proxy (pct : ℚ) :
    (partialCloseP t pct mc).trade.entry_price_proxy = t.entry_price_proxy := rfl

theorem partialCloseP_time (pct : ℚ) :
    (partialCloseP t pct mc).trade.entry_time = t.entry_time := rfl

theorem partialCloseP_base (pct : ℚ) :
    (partialCloseP t pct mc).trade.base_potential = t.base_potential := rfl

theorem partialCloseP_peak (pct : ℚ) :
    (partialCloseP t pct mc).trade.peak_mc = t.peak_mc := rfl

theorem partialCloseP_levels (pct : ℚ) :
    (partialCloseP t pct mc).trade.tp_levels_hit = t.tp_levels_hit := rfl

theorem partialCloseP_sold_le (pct : ℚ) :
    (partialCloseP t pct mc).sold ≤ t.current_units := by
  rw [partialCloseP_sold]
  split_ifs with h
  · exact le_refl _
  · exact not_lt.mp h

theorem partialCloseP_sold_nonneg (pct : ℚ)
    (hu : 0 ≤ t.current_units) (hi : 0 ≤ t.initial_units) (hpct : 0 ≤ pct) :
    0 ≤ (partialCloseP t pct mc).sold := by
  rw [partialCloseP_sold]
  split_ifs with h
  · exact hu
  · exact mul_nonneg hi hpct

theorem tpStepP_units (pct_used thr frac : ℚ) (label : String) :
    (tpStepP t pct_used thr frac mc label).trade.current_units =
      t.current_units - (tpStepP t pct_used thr frac mc label).sold := by
  unfold tpStepP; split_ifs with h
  · exact partialCloseP_units t mc frac
  · simp

theorem tpStepP_status (pct_used thr frac : ℚ) (label : String) :
    (tpStepP t pct_used thr frac mc label).trade.status = t.status := by
  unfold tpStepP; split_ifs <;> rfl

theorem tpStepP_initial (pct_used thr frac : ℚ) (label : String) :
    (tpStepP t pct_used thr frac mc label).trade.initial_units = t.initial_units := by
  unfold tpStepP; split_ifs <;> rfl

theorem tpStepP_entry_mc (pct_used thr frac : ℚ) (label : String) :
    (tpStepP t pct_used thr frac mc label).trade.entry_mc = t.entry_mc := by
  unfold tpStepP; split_ifs <;> rfl

theorem tpStepP_proxy (pct_used thr frac : ℚ) (label : String) :
    (tpStepP t pct_used thr frac mc label).trade.entry_price_proxy =
      t.entry_price_proxy := by
  unfold tpStepP; split_ifs <;> rfl

theorem tpStepP_time (pct_used thr frac : ℚ) (label : String) :
    (tpStepP t pct_used thr frac mc label).trade.entry_time = t.entry_time := by
  unfold tpStepP; split_ifs <;> rfl

theorem tpStepP_base (pct_used thr frac : ℚ) (label : String) :
    (tpStepP t pct_used thr frac mc label).trade.base_potential = t.base_potential := by
  unfold tpStepP; split_ifs <;> rfl

theorem tpStepP_peak (pct_used thr frac : ℚ) (label : String) :
    (tpStepP t pct_used thr frac mc label).trade.peak_mc = t.peak_mc := by
  unfold tpStepP; split_ifs <;> rfl

/-- After a tier step, the label is recorded whenever the threshold was
reached. -/
theorem tpStepP_label (pct_used thr frac : ℚ) (label : String) (h : pct_used ≥ thr) :
    label ∈ (tpStepP t pct_used thr frac mc label).trade.tp_levels_hit := by
  unfold tpStepP; split_ifs with hc
  · dsimp only
    rw [partialCloseP_levels]
    exact List.mem_append_right _ (List.mem_singleton.mpr rfl)
  · dsimp only
    by_contra hmem
    exact hc ⟨h, hmem⟩

/-- A tier whose label is recorded (or whose threshold is unmet) does
nothing. -/
theorem tpStepP_noop (pct_used thr frac : ℚ) (label : String)
    (h : pct_used ≥ thr → label ∈ t.tp_levels_hit) :
    tpStepP t pct_used thr frac mc label = { trade := t, proceeds := 0, sold := 0 } := by
  unfold tpStepP; split_ifs with hc
  · exact absurd (h hc.1) hc.2
  · rfl

/-- Monotonicity of the hit-label set across one tier step. -/
theorem tpStepP_label_mono (pct_used thr frac : ℚ) (label other : String)
    (h : other ∈ t.tp_levels_hit) :
    other ∈ (tpStepP t pct_used thr frac mc label).trade.tp_levels_hit := by
  unfold tpStepP; split_ifs with hc
  · dsimp only
    rw [partialCloseP_levels]
    exact List.mem_append_left _ h
  · exact h

theorem closeTradeP_peak (r : ExitReason) :
    (closeTradeP t mc now r).trade.peak_mc = t.peak_mc := rfl

theorem closeTradeP_entry_mc (r : ExitReason) :
    (closeTradeP t mc now r).trade.entry_mc = t.entry_mc := rfl

theorem closeTradeP_proxy (r : ExitReason) :
    (closeTradeP t mc now r).trade.entry_price_proxy = t.entry_price_proxy := rfl

theorem closeTradeP_time (r : ExitReason) :
    (closeTradeP t mc now r).trade.entry_time = t.entry_time := rfl

theorem closeTradeP_base (r : ExitReason) :
    (closeTradeP t mc now r).trade.base_potential = t.base_potential := rfl

theorem closeTradeP_levels (r : ExitReason) :
    (closeTradeP t mc now r).trade.tp_levels_hit = t.tp_levels_hit := rfl

/-- Fact: `pctUsedP` only reads `base_potential` and `entry_mc`. -/
theorem pctUsedP_congr (t1 t2 : TradeP) (v : ℚ)
    (hb : t1.base_potential = t2.base_potential) (he : t1.entry_mc = t2.entry_mc) :
    pctUsedP t1 v = pctUsedP t2 v := by
  unfold pctUsedP
  rw [hb, he]

/-- Fact: `lossPctP` only reads `entry_mc`. -/
theorem lossPctP_congr (t1 t2 : TradeP) (v : ℚ) (he : t1.entry_mc = t2.entry_mc) :
    lossPctP t1 v = lossPctP t2 v := by
  unfold lossPctP
  rw [he]

end PaperLemmas

section EvalLemmasP

variable (t : TradeP) (mc now : ℚ)

theorem evalTradeP_entry_mc : (evalTradeP t mc now).trade.entry_mc = t.entry_mc := by
  unfold evalTradeP; dsimp only; split_ifs <;>
    simp [closeTradeP_entry_mc, tpStepP_entry_mc, peakUpdateP_entry_mc]

theorem evalTradeP_proxy :
    (evalTradeP t mc now).trade.entry_price_proxy = t.entry_price_proxy := by
  unfold evalTradeP; dsimp only; split_ifs <;>
    simp [closeTradeP_proxy, tpStepP_proxy, peakUpdateP_proxy]

theorem evalTradeP_time : (evalTradeP t mc now).trade.entry_time = t.entry_time := by
  unfold evalTradeP; dsimp only; split_ifs <;>
    simp [closeTradeP_time, tpStepP_time, peakUpdateP_time]

theorem evalTradeP_base :
    (evalTradeP t mc now).trade.base_potential = t.base_potential := by
  unfold evalTradeP; dsimp only; split_ifs <;>
    simp [closeTradeP_base, tpStepP_base, peakUpdateP_base]

theorem evalTradeP_initial :
    (evalTradeP t mc now).trade.initial_units = t.initial_units := by
  unfold evalTradeP; dsimp only; split_ifs <;>
    simp [closeTradeP_initial, tpStepP_initial, peakUpdateP_initial]

theorem evalTradeP_peak_ge : mc ≤ (evalTradeP t mc now).trade.peak_mc := by
  unfold evalTradeP; dsimp only; split_ifs <;>
    simp only [closeTradeP_peak, tpStepP_peak] <;> exact peakUpdateP_peak_ge t mc

theorem evalTradeP_units :
    (evalTradeP t mc now).trade.current_units =
      t.current_units - (evalTradeP t mc now).sold := by
  have hu : (peakUpdateP t mc).current_units = t.current_units := peakUpdateP_units t mc
  unfold evalTradeP; dsimp only; split_ifs
  · rw [closeTradeP_units, closeTradeP_sold, hu]
    ring
  · rw [closeTradeP_units, closeTradeP_sold, hu]
    ring
  · rw [tpStepP_units, tpStepP_units, tpStepP_units, hu]
    ring

theorem evalTradeP_closed_units (hopen : t.status = Status.OPEN)
    (hclosed : (evalTradeP t mc now).trade.status = Status.CLOSED) :
    (evalTradeP t mc now).trade.current_units = 0 := by
  revert hclosed
  unfold evalTradeP; dsimp only; split_ifs <;> intro hclosed
  · exact closeTradeP_units _ _ _ _
  · exact closeTradeP_units _ _ _ _
  · exfalso
    rw [tpStepP_status, tpStepP_status, tpStepP_status, peakUpdateP_status, hopen]
      at hclosed
    exact Status.noConfusion hclosed

theorem evalTradeP_status_open
    (hopen : (evalTradeP t mc now).trade.status = Status.OPEN) :
    t.status = Status.OPEN := by
  revert hopen
  unfold evalTradeP; dsimp only; split_ifs <;> intro hopen
  · exact absurd (closeTradeP_status _ _ _ _ ▸ hopen) (by simp)
  · exact absurd (closeTradeP_status _ _ _ _ ▸ hopen) (by simp)
  · rw [tpStepP_status, tpStepP_status, tpStepP_status, peakUpdateP_status] at hopen
    exact hopen

/-- If the evaluation does not close the position, the stop and stagnation
conditions were false. -/
theorem evalTradeP_open_conditions
    (hopen : (evalTradeP t mc now).trade.status = Status.OPEN) :
    ¬ lossPctP (peakUpdateP t mc) mc ≥ 30/100 ∧
      ¬ (now - (peakUpdateP t mc).entry_time > 90 ∧
        pctUsedP (peakUpdateP t mc) mc < 30/100) := by
  revert hopen
  unfold evalTradeP; dsimp only; split_ifs with h1 h2 <;> intro hopen
  · exact absurd (closeTradeP_status _ _ _ _ ▸ hopen) (by simp)
  · exact absurd (closeTradeP_status _ _ _ _ ▸ hopen) (by simp)
  · exact ⟨h1, h2⟩

/-- If the evaluation does not close the position, every tier whose
threshold is reached has its label recorded afterwards. -/
theorem evalTradeP_labels
    (hopen : (evalTradeP t mc now).trade.status = Status.OPEN) :
    (pctUsedP (peakUpdateP t mc) mc ≥ 30/100 →
      "30%" ∈ (evalTradeP t mc now).trade.tp_levels_hit) ∧
    (pctUsedP (peakUpdateP t mc) mc ≥ 50/100 →
      "50%" ∈ (evalTradeP t mc now).trade.tp_levels_hit) ∧
    (pctUsedP (peakUpdateP t mc) mc ≥ 70/100 →
      "70%" ∈ (evalTradeP t mc now).trade.tp_levels_hit) := by
  revert hopen
  unfold evalTradeP; dsimp only; split_ifs <;> intro hopen
  · exact absurd (closeTradeP_status _ _ _ _ ▸ hopen) (by simp)
  · exact absurd (closeTradeP_status _ _ _ _ ▸ hopen) (by simp)
  · refine ⟨fun h30 => ?_, fun h50 => ?_, fun h70 => ?_⟩
    · exact tpStepP_label_mono _ _ _ _ _ _ _
        (tpStepP_label_mono _ _ _ _ _ _ _ (tpStepP_label _ _ _ _ _ _ h30))
    · exact tpStepP_label_mono _ _ _ _ _ _ _ (tpStepP_label _ _ _ _ _ _ h50)
    · exact tpStepP_label _ _ _ _ _ _ h70

/-- A trade on which the peak update does nothing, the stop and stagnation
conditions fail, and every reached tier is already recorded, is left
completely unchanged by the evaluation. -/
theorem evalTradeP_noop_of
    (ha : mc ≤ t.peak_mc)
    (hb : ¬ lossPctP t mc ≥ 30/100)
    (hc : ¬ (now - t.entry_time > 90 ∧ pctUsedP t mc < 30/100))
    (h30 : pctUsedP t mc ≥ 30/100 → "30%" ∈ t.tp_levels_hit)
    (h50 : pctUsedP t mc ≥ 50/100 → "50%" ∈ t.tp_levels_hit)
    (h70 : pctUsedP t mc ≥ 70/100 → "70%" ∈ t.tp_levels_hit) :
    evalTradeP t mc now = { trade := t, proceeds := 0, sold := 0 } := by
  unfold evalTradeP
  rw [peakUpdateP_of_le t mc ha]
  dsimp only
  rw [if_neg hb, if_neg hc, tpStepP_noop t mc _ _ _ _ h30]
  dsimp only
  rw [tpStepP_noop t mc _ _ _ _ h50]
  dsimp only
  rw [tpStepP_noop t mc _ _ _ _ h70]
  simp

end EvalLemmasP

/-- Any evaluated tick whose price is at or below 85% of entry closes the
position with STOP_LOSS. -/
theorem evalTradeB_stop_hit (t : TradeB) (p : ℚ) (n : ℤ)
    (h : stopInvB t) (hp : p ≤ t.entry_price * (85/100)) :
    (evalTradeB t p n).trade.status = Status.CLOSED ∧
      (evalTradeB t p n).trade.exit_reason = some ExitReason.STOP_LOSS := by
  have hstop : p ≤
      (trailingB (hardFloorB (updateAthB t p) (n - t.entry_time))).stop_loss_price := by
    have base : t.stop_loss_price ≤
        (trailingB (hardFloorB (updateAthB t p) (n - t.entry_time))).stop_loss_price := by
      calc t.stop_loss_price
          = (updateAthB t p).stop_loss_price := (updateAthB_stop t p).symm
        _ ≤ (hardFloorB (updateAthB t p) (n - t.entry_time)).stop_loss_price :=
            hardFloorB_stop_ge _ _
        _ ≤ _ := trailingB_stop_ge _
    unfold stopInvB at h
    linarith
  unfold evalTradeB; dsimp only
  rw [if_pos hstop]
  exact ⟨closeTradeB_status _ _ _ _, closeTradeB_reason _ _ _ _⟩

section IdemB

variable (t : TradeB) (p : ℚ) (n : ℤ)

theorem closeTradeB_ath (time : ℤ) (r : ExitReason) :
    (closeTradeB t p time r).trade.ath_price = t.ath_price := rfl

theorem closeTradeB_tp1 (time : ℤ) (r : ExitReason) :
    (closeTradeB t p time r).trade.tp1_hit = t.tp1_hit := rfl

/-- The ATH recorded after an evaluation is the one the ATH update set. -/
theorem evalTradeB_ath :
    (evalTradeB t p n).trade.ath_price = (updateAthB t p).ath_price := by
  unfold evalTradeB; dsimp only; split_ifs <;>
    simp [closeTradeB_ath, tp3StepB_ath, tp2StepB_ath, tp1StepB_ath,
      trailingB_ath, hardFloorB_ath]

theorem evalTradeB_ath_ge : p ≤ (evalTradeB t p n).trade.ath_price := by
  rw [evalTradeB_ath]
  exact updateAthB_ath_ge t p

/-- The hard floor is the identity whenever its tightening would not raise
the stop. -/
theorem hardFloorB_noop (mi : ℤ)
    (h : mi > 15 → t.entry_price * (70/100) ≤ t.stop_loss_price) :
    hardFloorB t mi = t := by
  unfold hardFloorB; dsimp only; split_ifs with h1 h2
  · rfl
  · exact TradeB_set_stop_self t _ (le_antisymm (not_lt.mp h2) (h h1)).symm
  · rfl

/-- After an evaluation later than 15 minutes in, the stop is at least 70%
of entry. -/
theorem evalTradeB_stop_floor (h : n - t.entry_time > 15) :
    t.entry_price * (70/100) ≤ (evalTradeB t p n).trade.stop_loss_price := by
  have hfl : t.entry_price * (70/100) ≤
      (trailingB (hardFloorB (updateAthB t p) (n - t.entry_time))).stop_loss_price := by
    have h1 : t.entry_price * (70/100) ≤
        (hardFloorB (updateAthB t p) (n - t.entry_time)).stop_loss_price := by
      have := hardFloorB_stop_floor (updateAthB t p) (n - t.entry_time) h
      rw [updateAthB_entry] at this
      exact this
    exact le_trans h1 (trailingB_stop_ge _)
  unfold evalTradeB; dsimp only; split_ifs
  · rw [closeTradeB_stop]
    exact hfl
  · rw [closeTradeB_stop, tp3StepB_stop, tp2StepB_stop]
    exact le_trans hfl (tp1StepB_stop_ge _ _ _)
  · rw [tp3StepB_stop, tp2StepB_stop]
    exact le_trans hfl (tp1StepB_stop_ge _ _ _)

/-- After an evaluation in which the trailing condition held, the stop is at
least the trail below the recorded ATH. -/
theorem evalTradeB_stop_trail
    (h : ((updateAthB t p).ath_price - t.entry_price) / t.entry_price ≥ 40/100) :
    (updateAthB t p).ath_price * (1 - 35/100) ≤
      (evalTradeB t p n).trade.stop_loss_price := by
  have htr : (updateAthB t p).ath_price * (1 - 35/100) ≤
      (trailingB (hardFloorB (updateAthB t p) (n - t.entry_time))).stop_loss_price := by
    have := trailingB_stop_trail (hardFloorB (updateAthB t p) (n - t.entry_time)) ?_
    · rw [hardFloorB_ath] at this
      exact this
    · rw [hardFloorB_ath, hardFloorB_entry, updateAthB_entry]
      exact h
  unfold evalTradeB; dsimp only; split_ifs
  · rw [closeTradeB_stop]
    exact htr
  · rw [closeTradeB_stop, tp3StepB_stop, tp2StepB_stop]
    exact le_trans htr (tp1StepB_stop_ge _ _ _)
  · rw [tp3StepB_stop, tp2StepB_stop]
    exact le_trans htr (tp1StepB_stop_ge _ _ _)

/-- Dissection of an evaluation that leaves the position open: the stop
check and the time-exit check both failed, and the result is the trade
after the take-profit ladder. -/
theorem evalTradeB_open_spec
    (h : (evalTradeB t p n).trade.status = Status.OPEN) :
    ¬ p ≤ (trailingB (hardFloorB (updateAthB t p) (n - t.entry_time))).stop_loss_price ∧
    ¬ ((n - t.entry_time) ≥ 90 ∧
        (-(10/100) ≤ (p - (trailingB (hardFloorB (updateAthB t p)
            (n - t.entry_time))).entry_price) /
          (trailingB (hardFloorB (updateAthB t p) (n - t.entry_time))).entry_price ∧
         (p - (trailingB (hardFloorB (updateAthB t p) (n - t.entry_time))).entry_price) /
          (trailingB (hardFloorB (updateAthB t p) (n - t.entry_time))).entry_price
            ≤ 20/100)) ∧
    (evalTradeB t p n).trade =
      (tp3StepB (tp2StepB (tp1StepB
          (trailingB (hardFloorB (updateAthB t p) (n - t.entry_time)))
          ((p - (trailingB (hardFloorB (updateAthB t p) (n - t.entry_time))).entry_price) /
            (trailingB (hardFloorB (updateAthB t p) (n - t.entry_time))).entry_price)
          p).trade
        ((p - (trailingB (hardFloorB (updateAthB t p) (n - t.entry_time))).entry_price) /
          (trailingB (hardFloorB (updateAthB t p) (n - t.entry_time))).entry_price)
        p).trade
      ((p - (trailingB (hardFloorB (updateAthB t p) (n - t.entry_time))).entry_price) /
        (trailingB (hardFloorB (updateAthB t p) (n - t.entry_time))).entry_price)
      p).trade := by
  revert h
  unfold evalTradeB; dsimp only; split_ifs with h1 h2 <;> intro h
  · exact absurd (closeTradeB_status _ _ _ _ ▸ h) (by simp)
  · exact absurd (closeTradeB_status _ _ _ _ ▸ h) (by simp)
  · exact ⟨h1, h2, rfl⟩

/-- The stop after the TP1 step, explicitly. -/
theorem tp1StepB_stop_spec (roi : ℚ) :
    (tp1StepB t roi p).trade.stop_loss_price =
      if roi ≥ 40/100 ∧ t.tp1_hit = false then
        max t.stop_loss_price t.entry_price
      else t.stop_loss_price := by
  unfold tp1StepB; split_ifs <;> rfl

/-- An evaluation that fires no exit leaves the trade untouched and sells
nothing: each stop update has nothing to raise, the stop check fails, every
reached tier is already flagged, and the time window does not fire. -/
theorem evalTradeB_noop_of (s : TradeB)
    (ha : p ≤ s.ath_price)
    (hh : n - s.entry_time > 15 → s.entry_price * (70/100) ≤ s.stop_loss_price)
    (htr : (s.ath_price - s.entry_price) / s.entry_price ≥ 40/100 →
      s.ath_price * (1 - 35/100) ≤ s.stop_loss_price)
    (hs : ¬ p ≤ s.stop_loss_price)
    (h1 : (p - s.entry_price) / s.entry_price ≥ 40/100 → s.tp1_hit = true)
    (h2 : (p - s.entry_price) / s.entry_price ≥ 1 → s.tp2_hit = true)
    (h3 : (p - s.entry_price) / s.entry_price ≥ 2 → s.tp3_hit = true)
    (htime : ¬ ((n - s.entry_time) ≥ 90 ∧
      (-(10/100) ≤ (p - s.entry_price) / s.entry_price ∧
        (p - s.entry_price) / s.entry_price ≤ 20/100))) :
    evalTradeB s p n = { trade := s, proceeds := 0, sold := 0 } := by
  unfold evalTradeB
  dsimp only
  rw [updateAthB_of_le s p ha, hardFloorB_noop s _ hh, trailingB_eq_self s htr]
  rw [if_neg hs, tp1StepB_noop s _ p h1]
  dsimp only
  rw [tp2StepB_noop s _ p h2]
  dsimp only
  rw [tp3StepB_noop s _ p h3]
  dsimp only
  rw [if_neg htime]
  simp

/-- Re-evaluating the exit rules with the same price and time after an
evaluation that left the position open changes nothing and sells nothing. -/
theorem evalTradeB_idem (hentry : 0 < t.entry_price)
    (h : (evalTradeB t p n).trade.status = Status.OPEN) :
    evalTradeB (evalTradeB t p n).trade p n =
      { trade := (evalTradeB t p n).trade, proceeds := 0, sold := 0 } := by
  obtain ⟨hstop, htime, heq⟩ := evalTradeB_open_spec t p n h
  have hE : (trailingB (hardFloorB (updateAthB t p) (n - t.entry_time))).entry_price
      = t.entry_price := by
    rw [trailingB_entry, hardFloorB_entry, updateAthB_entry]
  rw [hE] at htime heq
  have Fentry : (evalTradeB t p n).trade.entry_price = t.entry_price :=
    evalTradeB_entry t p n
  have Ftime : (evalTradeB t p n).trade.entry_time = t.entry_time :=
    evalTradeB_time t p n
  have Fath : (evalTradeB t p n).trade.ath_price = (updateAthB t p).ath_price :=
    evalTradeB_ath t p n
  have Fflag1 : (p - t.entry_price) / t.entry_price ≥ 40/100 →
      (evalTradeB t p n).trade.tp1_hit = true := by
    intro hr
    rw [heq, tp3StepB_tp1, tp2StepB_tp1]
    exact tp1StepB_flag _ _ _ hr
  have Fflag2 : (p - t.entry_price) / t.entry_price ≥ 1 →
      (evalTradeB t p n).trade.tp2_hit = true := by
    intro hr
    rw [heq, tp3StepB_tp2]
    exact tp2StepB_flag _ _ _ hr
  have Fflag3 : (p - t.entry_price) / t.entry_price ≥ 2 →
      (evalTradeB t p n).trade.tp3_hit = true := by
    intro hr
    rw [heq]
    exact tp3StepB_flag _ _ _ hr
  have Fstoplt : (evalTradeB t p n).trade.stop_loss_price < p := by
    rw [heq, tp3StepB_stop, tp2StepB_stop, tp1StepB_stop_spec, hE]
    split_ifs with hc
    · have hrp : t.entry_price < p := by
        rcases hc with ⟨hr, _⟩
        have h40 := (le_div_iff hentry).mp hr
        linarith [mul_pos (by norm_num : (0:ℚ) < 40/100) hentry]
      exact max_lt (lt_of_not_le hstop) hrp
    · exact lt_of_not_le hstop
  apply evalTradeB_noop_of p n
  · rw [Fath]
    exact updateAthB_ath_ge t p
  · intro hm
    rw [Ftime] at hm
    rw [Fentry]
    exact evalTradeB_stop_floor t p n hm
  · intro hr
    rw [Fath, Fentry] at hr
    rw [Fath]
    exact evalTradeB_stop_trail t p n hr
  · exact not_le.mpr Fstoplt
  · rw [Fentry]
    exact Fflag1
  · rw [Fentry]
    exact Fflag2
  · rw [Fentry]
    exact Fflag3
  · rw [Fentry, Ftime]
    exact htime

/-- Paper-mode idempotence: re-evaluating with the same market cap and time
after an evaluation that left the trade open changes nothing. -/
theorem evalTradeP_idem (t : TradeP) (mc now : ℚ)
    (h : (evalTradeP t mc now).trade.status = Status.OPEN) :
    evalTradeP (evalTradeP t mc now).trade mc now =
      { trade := (evalTradeP t mc now).trade, proceeds := 0, sold := 0 } := by
  obtain ⟨hb, hc⟩ := evalTradeP_open_conditions t mc now h
  obtain ⟨h30, h50, h70⟩ := evalTradeP_labels t mc now h
  have hemc : (evalTradeP t mc now).trade.entry_mc = (peakUpdateP t mc).entry_mc := by
    rw [evalTradeP_entry_mc, peakUpdateP_entry_mc]
  have hbase : (evalTradeP t mc now).trade.base_potential
      = (peakUpdateP t mc).base_potential := by
    rw [evalTradeP_base, peakUpdateP_base]
  have htm : (evalTradeP t mc now).trade.entry_time = (peakUpdateP t mc).entry_time := by
    rw [evalTradeP_time, peakUpdateP_time]
  have hpct : pctUsedP (evalTradeP t mc now).trade mc = pctUsedP (peakUpdateP t mc) mc :=
    pctUsedP_congr _ _ _ hbase hemc
  have hloss : lossPctP (evalTradeP t mc now).trade mc = lossPctP (peakUpdateP t mc) mc :=
    lossPctP_congr _ _ _ hemc
  apply evalTradeP_noop_of
  · exact evalTradeP_peak_ge t mc now
  · rw [hloss]
    exact hb
  · rw [hpct, htm]
    exact hc
  · rw [hpct]
    exact h30
  · rw [hpct]
    exact h50
  · rw [hpct]
    exact h70

end IdemB

/-- A paper position's lifetime: evaluations at a sequence of (market cap,
time) ticks while the position is open, with the total units sold. -/
def lifetimeP : TradeP → List (ℚ × ℚ) → TradeP × ℚ
  | t, [] => (t, 0)
  | t, step :: rest =>
    if t.status = Status.OPEN then
      let o := evalTradeP t step.1 step.2
      let r := lifetimeP o.trade rest
      (r.1, o.sold + r.2)
    else lifetimeP t rest

theorem lifetimeP_initial (t : TradeP) (steps : List (ℚ × ℚ)) :
    (lifetimeP t steps).1.initial_units = t.initial_units := by
  induction steps generalizing t with
  | nil => rfl
  | cons step rest ih =>
    unfold lifetimeP
    split_ifs with h
    · rw [ih, evalTradeP_initial]
    · exact ih t

theorem lifetimeP_units (t : TradeP) (steps : List (ℚ × ℚ)) :
    (lifetimeP t steps).1.current_units + (lifetimeP t steps).2 = t.current_units := by
  induction steps generalizing t with
  | nil => simp [lifetimeP]
  | cons step rest ih =>
    unfold lifetimeP
    split_ifs with h
    · dsimp only
      have := ih (evalTradeP t step.1 step.2).trade
      rw [evalTradeP_units] at this
      linarith
    · exact ih t

theorem lifetimeP_closed_units (t : TradeP) (steps : List (ℚ × ℚ))
    (hinv : t.status = Status.CLOSED → t.current_units = 0) :
    (lifetimeP t steps).1.status = Status.CLOSED →
      (lifetimeP t steps).1.current_units = 0 := by
  induction steps generalizing t with
  | nil => exact hinv
  | cons step rest ih =>
    unfold lifetimeP
    split_ifs with h
    · dsimp only
      refine ih _ ?_
      intro hcl
      exact evalTradeP_closed_units t step.1 step.2 h hcl
    · exact ih t hinv

/-- Nonnegativity invariant on a paper trade. -/
def tradeInvP (t : TradeP) : Prop :=
  0 ≤ t.current_units ∧ 0 ≤ t.initial_units ∧ 0 ≤ t.entry_price_proxy ∧ 0 ≤ t.entry_mc

instance (t : TradeP) : Decidable (tradeInvP t) := by
  unfold tradeInvP; infer_instance

theorem partialCloseP_inv (t : TradeP) (mc : ℚ) (pct : ℚ)
    (h : tradeInvP t) (hpct : 0 ≤ pct) (hmc : 0 ≤ mc) :
    tradeInvP (partialCloseP t pct mc).trade ∧
      0 ≤ (partialCloseP t pct mc).proceeds ∧ 0 ≤ (partialCloseP t pct mc).sold := by
  obtain ⟨hu, hi, hx, he⟩ := h
  have hsold : 0 ≤ (partialCloseP t pct mc).sold :=
    partialCloseP_sold_nonneg t mc pct hu hi hpct
  have hle : (partialCloseP t pct mc).sold ≤ t.current_units :=
    partialCloseP_sold_le t mc pct
  refine ⟨⟨?_, ?_, ?_, ?_⟩, ?_, hsold⟩
  · rw [partialCloseP_units]
    linarith
  · rw [partialCloseP_initial]; exact hi
  · rw [partialCloseP_proxy]; exact hx
  · rw [partialCloseP_entry_mc]; exact he
  · rw [partialCloseP_proceeds]
    exact mul_nonneg hsold (mul_nonneg hx (div_nonneg hmc he))

theorem closeTradeP_inv (t : TradeP) (mc now : ℚ) (r : ExitReason)
    (h : tradeInvP t) (hmc : 0 ≤ mc) :
    tradeInvP (closeTradeP t mc now r).trade ∧ 0 ≤ (closeTradeP t mc now r).proceeds := by
  obtain ⟨hu, hi, hx, he⟩ := h
  refine ⟨⟨?_, ?_, ?_, ?_⟩, ?_⟩
  · rw [closeTradeP_units]
  · rw [closeTradeP_initial]; exact hi
  · rw [closeTradeP_proxy]; exact hx
  · rw [closeTradeP_entry_mc]; exact he
  · rw [closeTradeP_proceeds]
    exact mul_nonneg hu (mul_nonneg hx (div_nonneg hmc he))

theorem tpStepP_inv (t : TradeP) (mc : ℚ) (pct_used thr frac : ℚ) (label : String)
    (h : tradeInvP t) (hfrac : 0 ≤ frac) (hmc : 0 ≤ mc) :
    tradeInvP (tpStepP t pct_used thr frac mc label).trade ∧
      0 ≤ (tpStepP t pct_used thr frac mc label).proceeds ∧
      0 ≤ (tpStepP t pct_used thr frac mc label).sold := by
  unfold tpStepP; split_ifs with hcond
  · have := partialCloseP_inv t mc frac h hfrac hmc
    obtain ⟨⟨hu, hi, hx, he⟩, hpr, hsd⟩ := this
    exact ⟨⟨hu, hi, hx, he⟩, hpr, hsd⟩
  · exact ⟨h, le_refl 0, le_refl 0⟩

theorem peakUpdateP_inv (t : TradeP) (mc : ℚ) (h : tradeInvP t) :
    tradeInvP (peakUpdateP t mc) := by
  obtain ⟨hu, hi, hx, he⟩ := h
  exact ⟨peakUpdateP_units t mc ▸ hu, peakUpdateP_initial t mc ▸ hi,
    peakUpdateP_proxy t mc ▸ hx, peakUpdateP_entry_mc t mc ▸ he⟩

/-- One paper evaluation keeps the nonnegativity invariant and only ever
credits a nonnegative amount. -/
theorem evalTradeP_inv (t : TradeP) (mc now : ℚ) (h : tradeInvP t) (hmc : 0 ≤ mc) :
    tradeInvP (evalTradeP t mc now).trade ∧ 0 ≤ (evalTradeP t mc now).proceeds := by
  have h0 : tradeInvP (peakUpdateP t mc) := peakUpdateP_inv t mc h
  unfold evalTradeP; dsimp only; split_ifs
  · exact closeTradeP_inv _ mc now _ h0 hmc
  · exact closeTradeP_inv _ mc now _ h0 hmc
  · obtain ⟨i1, pr1, sd1⟩ := tpStepP_inv _ mc _ _ (20/100) _ h0 (by norm_num) hmc
    obtain ⟨i2, pr2, sd2⟩ := tpStepP_inv _ mc _ _ (25/100) _ i1 (by norm_num) hmc
    obtain ⟨i3, pr3, sd3⟩ := tpStepP_inv _ mc _ _ (30/100) _ i2 (by norm_num) hmc
    exact ⟨i3, by positivity⟩

section ProcessSignalLemmas

variable (s : EngineState) (sig : SignalB)

/-- A signal scoring below 80 is rejected outright, before any other check,
and the engine state is untouched. -/
theorem processSignalB_score_lt (h : sig.signal_score < 80) :
    processSignalB s sig = (s, none) := by
  unfold processSignalB
  rw [if_pos h]

/-- Once the daily loss breaker is tripped, every signal is rejected and the
state is untouched. -/
theorem processSignalB_tripped (h : s.daily_loss_limit_hit = true) :
    processSignalB s sig = (s, none) := by
  unfold processSignalB
  split_ifs <;> simp_all

/-- Exactly which conditions make the backtest engine reject a signal. -/
theorem processSignalB_none_iff :
    (processSignalB s sig).2 = none ↔
      (sig.signal_score < 80 ∨ 4 ≤ s.active_trades.length ∨
        s.daily_loss_limit_hit = true) := by
  unfold processSignalB
  split_ifs with h1 h2 h3 <;> simp_all

/-- A rejection leaves the state untouched. -/
theorem processSignalB_state_of_none (h : (processSignalB s sig).2 = none) :
    (processSignalB s sig).1 = s := by
  revert h
  unfold processSignalB
  split_ifs <;> simp_all

/-- With the active set full, every signal is rejected and the state is
untouched. -/
theorem processSignalB_full (h : 4 ≤ s.active_trades.length) :
    processSignalB s sig = (s, none) := by
  unfold processSignalB
  split_ifs <;> simp_all

/-- The position size debited never exceeds the available capital. -/
theorem processSignalB_size_le (tr : TradeB)
    (h : (processSignalB s sig).2 = some tr) :
    tr.position_size_usd ≤ s.capital := by
  by_cases h1 : sig.signal_score < 80
  · rw [processSignalB_score_lt s sig h1] at h
    exact absurd h (by simp)
  by_cases h2 : 4 ≤ s.active_trades.length
  · rw [processSignalB_full s sig h2] at h
    exact absurd h (by simp)
  by_cases h3 : s.daily_loss_limit_hit
  · rw [processSignalB_tripped s sig h3] at h
    exact absurd h (by simp)
  unfold processSignalB at h
  rw [if_neg h1, if_neg (by simpa using h2), if_neg (by simpa using h3)] at h
  dsimp only at h
  injection h with h
  subst h
  dsimp only
  split_ifs <;> first | exact le_refl _ | exact not_lt.mp (by assumption)

theorem processSignalB_equity : (processSignalB s sig).1.equity = s.equity := by
  unfold processSignalB
  split_ifs <;> rfl

theorem processSignalB_curve :
    (processSignalB s sig).1.equity_curve = s.equity_curve := by
  unfold processSignalB
  split_ifs <;> rfl

theorem admitSignalsB_equity (sigs : List SignalB) (τ : ℤ) :
    (admitSignalsB s sigs τ).1.equity = s.equity := by
  induction sigs generalizing s with
  | nil => rfl
  | cons sig rest ih =>
    unfold admitSignalsB
    split_ifs with h
    · rw [ih]
      exact processSignalB_equity s sig
    · rfl

theorem admitSignalsB_curve (sigs : List SignalB) (τ : ℤ) :
    (admitSignalsB s sigs τ).1.equity_curve = s.equity_curve := by
  induction sigs generalizing s with
  | nil => rfl
  | cons sig rest ih =>
    unfold admitSignalsB
    split_ifs with h
    · rw [ih]
      exact processSignalB_curve s sig
    · rfl

/-- Exactly which conditions make the paper trader reject a signal. -/
theorem processSignalP_none_iff (sp : PaperState) (sg : SignalP) (now : ℚ) :
    (processSignalP sp sg now).2 = none ↔
      (4 ≤ sp.active_trades.length ∨ sp.capital ≤ 0) := by
  unfold processSignalP
  split_ifs with h1 h2 <;> simp_all

theorem processSignalP_state_of_none (sp : PaperState) (sg : SignalP) (now : ℚ)
    (h : (processSignalP sp sg now).2 = none) :
    (processSignalP sp sg now).1 = sp := by
  revert h
  unfold processSignalP
  split_ifs <;> simp_all

end ProcessSignalLemmas

/-- Nonnegative cash and well-formed active positions. -/
def engInvB (s : EngineState) : Prop :=
  0 ≤ s.capital ∧ ∀ t ∈ s.active_trades, tradeInvB t

/-- All price samples in the price data are nonnegative (the spec's
price-update contract). -/
def pdNonneg (pd : PriceData) : Prop :=
  ∀ e ∈ pd, ∀ q ∈ e.2, 0 ≤ q.2

theorem mem_of_getLast? {α : Type} : ∀ (l : List α) (a : α), l.getLast? = some a → a ∈ l
  | [], a, h => by
    rw [List.getLast?_nil] at h
    exact absurd h (by simp)
  | [x], a, h => by
    rw [List.getLast?_singleton] at h
    injection h with h
    subst h
    exact List.mem_singleton_self x
  | x :: y :: ys, a, h => by
    rw [List.getLast?_cons_cons] at h
    exact List.mem_cons_of_mem x (mem_of_getLast? (y :: ys) a h)

theorem priceAt_nonneg (df : PricePath) (τ : ℤ) (p : ℚ)
    (hdf : ∀ q ∈ df, 0 ≤ q.2) (h : priceAt df τ = some p) : 0 ≤ p := by
  unfold priceAt at h
  cases hfind : List.find? (fun e => e.1 = τ) df with
  | none => rw [hfind] at h; exact absurd h (by simp)
  | some e =>
    rw [hfind] at h
    simp only [Option.map_some'] at h
    injection h with h
    subst h
    exact hdf e (List.mem_of_find?_eq_some hfind)

theorem findPath_nonneg (pd : PriceData) (tok : String) (df : PricePath)
    (hpd : pdNonneg pd) (h : findPath pd tok = some df) : ∀ q ∈ df, 0 ≤ q.2 := by
  unfold findPath at h
  cases hfind : List.find? (fun e => e.1 = tok) pd with
  | none => rw [hfind] at h; exact absurd h (by simp)
  | some e =>
    rw [hfind] at h
    simp only [Option.map_some'] at h
    injection h with h
    subst h
    exact hpd e (List.mem_of_find?_eq_some hfind)

/-- One `_update_trades` loop iteration keeps capital and positions
well-formed. -/
theorem updateOneTradeB_inv (dse eq0 : ℚ) (now : ℤ) (pd : PriceData)
    (acc : UTAcc) (t : TradeB)
    (hacc : 0 ≤ acc.capital ∧ ∀ u ∈ acc.active, tradeInvB u)
    (ht : tradeInvB t) (hpd : pdNonneg pd) :
    0 ≤ (updateOneTradeB dse eq0 now pd acc t).capital ∧
      ∀ u ∈ (updateOneTradeB dse eq0 now pd acc t).active, tradeInvB u := by
  obtain ⟨hcap, hact⟩ := hacc
  have happ : ∀ (u : TradeB) (l : List TradeB), (∀ x ∈ l, tradeInvB x) →
      tradeInvB u → ∀ x ∈ l ++ [u], tradeInvB x := by
    intro u l hl hu x hx
    rcases List.mem_append.mp hx with hx | hx
    · exact hl x hx
    · rw [List.mem_singleton.mp hx]
      exact hu
  cases hfp : findPath pd t.token_address with
  | none =>
    simp only [updateOneTradeB, hfp]
    exact ⟨hcap, happ t acc.active hact ht⟩
  | some df =>
    have hdf := findPath_nonneg pd t.token_address df hpd hfp
    cases hpa : priceAt df now with
    | some p =>
      have hp : 0 ≤ p := priceAt_nonneg df now p hdf hpa
      obtain ⟨hinv, hpr, hsd⟩ := evalTradeB_inv t p now ht hp
      simp only [updateOneTradeB, hfp, hpa]
      split_ifs with hclosed hflag
      · exact ⟨by dsimp only; linarith, hact⟩
      · exact ⟨by dsimp only; linarith, happ _ _ hact hinv⟩
      · exact ⟨by dsimp only; linarith, happ _ _ hact hinv⟩
    | none =>
      cases hlast : df.getLast? with
      | some last =>
        have hlp : 0 ≤ last.2 := hdf last (mem_of_getLast? df last hlast)
        obtain ⟨hi2, hprc, hs2⟩ :=
          closeTradeB_inv t last.2 last.1 ExitReason.END_OF_DATA ht hlp
        simp only [updateOneTradeB, hfp, hpa, hlast]
        split_ifs with hpast
        · exact ⟨by dsimp only; linarith, hact⟩
        · exact ⟨hcap, happ _ _ hact ht⟩
      | none =>
        simp only [updateOneTradeB, hfp, hpa, hlast]
        exact ⟨hcap, happ _ _ hact ht⟩

theorem updateTradesB_foldl_inv (dse eq0 : ℚ) (now : ℤ) (pd : PriceData)
    (hpd : pdNonneg pd) :
    ∀ (l : List TradeB) (acc : UTAcc),
      (0 ≤ acc.capital ∧ ∀ u ∈ acc.active, tradeInvB u) →
      (∀ u ∈ l, tradeInvB u) →
      0 ≤ (l.foldl (updateOneTradeB dse eq0 now pd) acc).capital ∧
        ∀ u ∈ (l.foldl (updateOneTradeB dse eq0 now pd) acc).active, tradeInvB u := by
  intro l
  induction l with
  | nil => intro acc hacc _; exact hacc
  | cons t rest ih =>
    intro acc hacc hl
    rw [List.foldl_cons]
    exact ih _ (updateOneTradeB_inv dse eq0 now pd acc t hacc
        (hl t (List.mem_cons_self t rest)) hpd)
      (fun u hu => hl u (List.mem_cons_of_mem t hu))

/-- Fact: `_update_trades` keeps the engine invariant. -/
theorem updateTradesB_inv (s : EngineState) (now : ℤ) (pd : PriceData)
    (h : engInvB s) (hpd : pdNonneg pd) : engInvB (updateTradesB s now pd) := by
  obtain ⟨hcap, hact⟩ := h
  unfold updateTradesB
  exact updateTradesB_foldl_inv s.daily_start_equity s.equity now pd hpd
    s.active_trades _ ⟨hcap, by intro u hu; exact absurd hu (by simp)⟩ hact

/-- Fact: `_process_signal` keeps the engine invariant for positively priced
signals. -/
theorem processSignalB_inv (s : EngineState) (sig : SignalB)
    (h : engInvB s) (hp : 0 < sig.price_at_signal) :
    engInvB (processSignalB s sig).1 := by
  by_cases h1 : sig.signal_score < 80
  · rw [processSignalB_score_lt s sig h1]; exact h
  by_cases h2 : 4 ≤ s.active_trades.length
  · rw [processSignalB_full s sig h2]; exact h
  by_cases h3 : s.daily_loss_limit_hit
  · rw [processSignalB_tripped s sig h3]; exact h
  obtain ⟨hcap, hact⟩ := h
  have hpct : (0:ℚ) ≤ (if sig.signal_score ≥ 90 then (25/1000:ℚ)
      else if sig.signal_score ≥ 85 then 20/1000 else 15/1000) := by
    split_ifs <;> norm_num
  unfold processSignalB
  rw [if_neg h1, if_neg (by simpa using h2), if_neg (by simpa using h3)]
  dsimp only
  have h0 : (0:ℚ) ≤ s.capital * (if sig.signal_score ≥ 90 then (25/1000:ℚ)
      else if sig.signal_score ≥ 85 then 20/1000 else 15/1000) / (15/100) := by
    apply div_nonneg (mul_nonneg hcap hpct)
    norm_num
  have hsize : (0:ℚ) ≤ (if s.capital * (if sig.signal_score ≥ 90 then (25/1000:ℚ)
      else if sig.signal_score ≥ 85 then 20/1000 else 15/1000) / (15/100) > s.capital
      then s.capital
      else s.capital * (if sig.signal_score ≥ 90 then (25/1000:ℚ)
        else if sig.signal_score ≥ 85 then 20/1000 else 15/1000) / (15/100)) := by
    by_cases hgt : s.capital * (if sig.signal_score ≥ 90 then (25/1000:ℚ)
        else if sig.signal_score ≥ 85 then 20/1000 else 15/1000) / (15/100) > s.capital
    · rw [if_pos hgt]
      exact hcap
    · rw [if_neg hgt]
      exact h0
  have hsizele : (if s.capital * (if sig.signal_score ≥ 90 then (25/1000:ℚ)
      else if sig.signal_score ≥ 85 then 20/1000 else 15/1000) / (15/100) > s.capital
      then s.capital
      else s.capital * (if sig.signal_score ≥ 90 then (25/1000:ℚ)
        else if sig.signal_score ≥ 85 then 20/1000 else 15/1000) / (15/100)) ≤
      s.capital := by
    by_cases hgt : s.capital * (if sig.signal_score ≥ 90 then (25/1000:ℚ)
        else if sig.signal_score ≥ 85 then 20/1000 else 15/1000) / (15/100) > s.capital
    · rw [if_pos hgt]
    · rw [if_neg hgt]
      exact not_lt.mp hgt
  constructor
  · dsimp only
    linarith
  · intro u hu
    rcases List.mem_append.mp hu with hu | hu
    · exact hact u hu
    · rw [List.mem_singleton.mp hu]
      exact ⟨div_nonneg hsize (le_of_lt hp), hsize, le_of_lt hp⟩

/-- One operation on the backtest engine: a new signal or a price tick. -/
inductive OpB
  | signal (sig : SignalB)
  | priceUpdate (now : ℤ) (pd : PriceData)

/-- Input contract for one operation: signals carry positive prices, price
data carries nonnegative samples. -/
def OpBValid : OpB → Prop
  | OpB.signal sig => 0 < sig.price_at_signal
  | OpB.priceUpdate _ pd => pdNonneg pd

instance : DecidablePred OpBValid := fun op => by
  cases op <;> dsimp only [OpBValid, pdNonneg] <;> infer_instance

def applyOpB (s : EngineState) : OpB → EngineState
  | OpB.signal sig => (processSignalB s sig).1
  | OpB.priceUpdate now pd => updateTradesB s now pd

def applyOpsB (s : EngineState) (ops : List OpB) : EngineState :=
  ops.foldl applyOpB s

theorem applyOpsB_inv (s : EngineState) (ops : List OpB)
    (h : engInvB s) (hops : ∀ op ∈ ops, OpBValid op) :
    engInvB (applyOpsB s ops) := by
  induction ops generalizing s with
  | nil => exact h
  | cons op rest ih =>
    have hop := hops op (List.mem_cons_self op rest)
    have hrest : ∀ o ∈ rest, OpBValid o := fun o ho => hops o (List.mem_cons_of_mem op ho)
    cases op with
    | signal sig =>
      exact ih _ (processSignalB_inv s sig h hop) hrest
    | priceUpdate now pd =>
      exact ih _ (updateTradesB_inv s now pd h hop) hrest

/-- Nonnegative cash and well-formed active positions, paper side. -/
def engInvP (s : PaperState) : Prop :=
  0 ≤ s.capital ∧ ∀ t ∈ s.active_trades, tradeInvP t

/-- All market-cap samples in an update map are nonnegative. -/
def mpNonneg (mp : McMap) : Prop :=
  ∀ e ∈ mp, 0 ≤ e.2

theorem mcLookup_nonneg (mp : McMap) (tok : String) (v : ℚ)
    (hmp : mpNonneg mp) (h : mcLookup mp tok = some v) : 0 ≤ v := by
  unfold mcLookup at h
  cases hfind : List.find? (fun e => e.1 = tok) mp with
  | none => rw [hfind] at h; exact absurd h (by simp)
  | some e =>
    rw [hfind] at h
    simp only [Option.map_some'] at h
    rcases eq_or_ne e.2 0 with hz | hz
    · rw [if_pos hz] at h
      exact absurd h (by simp)
    · rw [if_neg hz] at h
      injection h with h
      subst h
      exact hmp e (List.mem_of_find?_eq_some hfind)

theorem processSignalP_inv (s : PaperState) (sg : SignalP) (now : ℚ)
    (h : engInvP s) (hpr : 0 ≤ sg.price_usd) (hmc : 0 ≤ sg.mc) :
    engInvP (processSignalP s sg now).1 := by
  obtain ⟨hcap, hact⟩ := h
  unfold processSignalP
  split_ifs with h1 h2 h3
  · exact ⟨hcap, hact⟩
  · exact ⟨hcap, hact⟩
  · have h2lt : 0 < s.capital := lt_of_not_le h2
    refine ⟨by dsimp only; linarith, ?_⟩
    intro u hu
    rcases List.mem_append.mp hu with hu | hu
    · exact hact u hu
    · rw [List.mem_singleton.mp hu]
      exact ⟨div_nonneg (by linarith) hpr, div_nonneg (by linarith) hpr, hpr, hmc⟩
  · have h2lt : 0 < s.capital := lt_of_not_le h2
    refine ⟨by dsimp only; linarith, ?_⟩
    intro u hu
    rcases List.mem_append.mp hu with hu | hu
    · exact hact u hu
    · rw [List.mem_singleton.mp hu]
      exact ⟨le_refl 0, le_refl 0, hpr, hmc⟩

theorem updateOneTradeP_inv (mp : McMap) (now : ℚ) (acc : PaperState) (t : TradeP)
    (hacc : 0 ≤ acc.capital ∧ ∀ u ∈ acc.active_trades, tradeInvP u)
    (ht : tradeInvP t) (hmp : mpNonneg mp) :
    0 ≤ (updateOneTradeP mp now acc t).capital ∧
      ∀ u ∈ (updateOneTradeP mp now acc t).active_trades, tradeInvP u := by
  obtain ⟨hcap, hact⟩ := hacc
  have happ : ∀ (u : TradeP) (l : List TradeP), (∀ x ∈ l, tradeInvP x) →
      tradeInvP u → ∀ x ∈ l ++ [u], tradeInvP x := by
    intro u l hl hu x hx
    rcases List.mem_append.mp hx with hx | hx
    · exact hl x hx
    · rw [List.mem_singleton.mp hx]
      exact hu
  cases hlk : mcLookup mp t.token_address with
  | none =>
    simp only [updateOneTradeP, hlk]
    exact ⟨hcap, happ t acc.active_trades hact ht⟩
  | some mc =>
    have hmc : 0 ≤ mc := mcLookup_nonneg mp t.token_address mc hmp hlk
    obtain ⟨hinv, hpr⟩ := evalTradeP_inv t mc now ht hmc
    simp only [updateOneTradeP, hlk]
    split_ifs with hclosed
    · exact ⟨by dsimp only; linarith, hact⟩
    · exact ⟨by dsimp only; linarith, happ _ _ hact hinv⟩

theorem updateTradesP_inv (s : PaperState) (mp : McMap) (now : ℚ)
    (h : engInvP s) (hmp : mpNonneg mp) : engInvP (updateTradesP s mp now) := by
  obtain ⟨hcap, hact⟩ := h
  unfold updateTradesP
  have : ∀ (l : List TradeP) (acc : PaperState),
      (0 ≤ acc.capital ∧ ∀ u ∈ acc.active_trades, tradeInvP u) →
      (∀ u ∈ l, tradeInvP u) →
      0 ≤ (l.foldl (updateOneTradeP mp now) acc).capital ∧
        ∀ u ∈ (l.foldl (updateOneTradeP mp now) acc).active_trades, tradeInvP u := by
    intro l
    induction l with
    | nil => intro acc hacc _; exact hacc
    | cons t rest ih =>
      intro acc hacc hl
      rw [List.foldl_cons]
      exact ih _ (updateOneTradeP_inv mp now acc t hacc
          (hl t (List.mem_cons_self t rest)) hmp)
        (fun u hu => hl u (List.mem_cons_of_mem t hu))
  exact this s.active_trades _ ⟨hcap, by intro u hu; exact absurd hu (by simp)⟩ hact

/-- One operation on the paper trader: a new signal or a market-cap tick. -/
inductive OpP
  | signal (sg : SignalP) (now : ℚ)
  | mcUpdate (mp : McMap) (now : ℚ)

/-- Input contract: signals carry nonnegative price and market cap, updates
carry nonnegative market caps. -/
def OpPValid : OpP → Prop
  | OpP.signal sg _ => 0 ≤ sg.price_usd ∧ 0 ≤ sg.mc
  | OpP.mcUpdate mp _ => mpNonneg mp

instance : DecidablePred OpPValid := fun op => by
  cases op <;> dsimp only [OpPValid, mpNonneg] <;> infer_instance

def applyOpP (s : PaperState) : OpP → PaperState
  | OpP.signal sg now => (processSignalP s sg now).1
  | OpP.mcUpdate mp now => updateTradesP s mp now

def applyOpsP (s : PaperState) (ops : List OpP) : PaperState :=
  ops.foldl applyOpP s

theorem applyOpsP_inv (s : PaperState) (ops : List OpP)
    (h : engInvP s) (hops : ∀ op ∈ ops, OpPValid op) :
    engInvP (applyOpsP s ops) := by
  induction ops generalizing s with
  | nil => exact h
  | cons op rest ih =>
    have hop := hops op (List.mem_cons_self op rest)
    have hrest : ∀ o ∈ rest, OpPValid o := fun o ho => hops o (List.mem_cons_of_mem op ho)
    cases op with
    | signal sg now =>
      exact ih _ (processSignalP_inv s sg now h hop.1 hop.2) hrest
    | mcUpdate mp now =>
      exact ih _ (updateTradesP_inv s mp now h hop) hrest

section BreakerLemmas

variable (dse eq0 : ℚ) (now : ℤ) (pd : PriceData) (acc : UTAcc) (t : TradeB)

/-- The loss flag is never cleared inside `_update_trades`. -/
theorem updateOneTradeB_flag_mono (hf : acc.flag = true) :
    (updateOneTradeB dse eq0 now pd acc t).flag = true := by
  cases hfp : findPath pd t.token_address with
  | none =>
    simp only [updateOneTradeB, hfp]
    exact hf
  | some df =>
    cases hpa : priceAt df now with
    | some p =>
      simp only [updateOneTradeB, hfp, hpa]
      split_ifs <;> first | exact hf | rfl
    | none =>
      cases hlast : df.getLast? with
      | some last =>
        simp only [updateOneTradeB, hfp, hpa, hlast]
        split_ifs <;> exact hf
      | none =>
        simp only [updateOneTradeB, hfp, hpa, hlast]
        exact hf

/-- A trade that completes its loop iteration (price found, evaluation left
it open) runs the daily-loss check and trips the flag whenever the engine's
stale equity is more than 10% below the daily start. -/
theorem updateOneTradeB_flag_trigger
    (hcond : eq0 - dse < -(dse * (10/100)))
    (hcomp : completesB pd now t = true) :
    (updateOneTradeB dse eq0 now pd acc t).flag = true := by
  unfold completesB priceLookup at hcomp
  cases hfp : findPath pd t.token_address with
  | none =>
    rw [hfp] at hcomp
    exact absurd hcomp (by simp)
  | some df =>
    rw [hfp] at hcomp
    simp only [Option.some_bind] at hcomp
    cases hpa : priceAt df now with
    | some p =>
      rw [hpa] at hcomp
      simp only [decide_eq_true_eq] at hcomp
      simp only [updateOneTradeB, hfp, hpa]
      split_ifs with hclosed
      · rw [hcomp] at hclosed
        exact absurd hclosed (by simp)
      · rfl
    | none =>
      rw [hpa] at hcomp
      exact absurd hcomp (by simp)

theorem updateTradesB_foldl_flag_mono :
    ∀ (l : List TradeB) (acc : UTAcc), acc.flag = true →
      (l.foldl (updateOneTradeB dse eq0 now pd) acc).flag = true := by
  intro l
  induction l with
  | nil => intro acc h; exact h
  | cons t rest ih =>
    intro acc h
    rw [List.foldl_cons]
    exact ih _ (updateOneTradeB_flag_mono dse eq0 now pd acc t h)

/-- Fact: `_update_trades` trips the breaker when the stale equity condition holds
and some active trade completes its evaluation. -/
theorem updateTradesB_trips (s : EngineState)
    (hcond : s.equity - s.daily_start_equity < -(s.daily_start_equity * (10/100)))
    (hex : ∃ t ∈ s.active_trades, completesB pd now t = true) :
    (updateTradesB s now pd).daily_loss_limit_hit = true := by
  unfold updateTradesB
  dsimp only
  obtain ⟨t0, ht0, hc0⟩ := hex
  have main : ∀ (l : List TradeB) (acc : UTAcc),
      (∃ t ∈ l, completesB pd now t = true) ∨ acc.flag = true →
      (l.foldl (updateOneTradeB s.daily_start_equity s.equity now pd) acc).flag
        = true := by
    intro l
    induction l with
    | nil =>
      intro acc h
      rcases h with ⟨t, ht, _⟩ | h
      · exact absurd ht (by simp)
      · exact h
    | cons t rest ih =>
      intro acc h
      rw [List.foldl_cons]
      rcases h with ⟨u, hu, hcu⟩ | h
      · rcases List.mem_cons.mp hu with rfl | hu
        · exact updateTradesB_foldl_flag_mono s.daily_start_equity s.equity now pd
            rest _ (updateOneTradeB_flag_trigger s.daily_start_equity s.equity
              now pd acc u hcond hcu)
        · exact ih _ (Or.inl ⟨u, hu, hcu⟩)
      · exact ih _ (Or.inr (updateOneTradeB_flag_mono s.daily_start_equity s.equity
          now pd acc t h))
  exact main s.active_trades _ (Or.inl ⟨t0, ht0, hc0⟩)

/-- Day rollover resets the daily risk budget. -/
theorem dayResetB_rollover (s : EngineState) (τ : ℤ)
    (h : s.current_day ≠ some (dayOfB τ)) :
    (dayResetB s τ).daily_start_equity = s.equity ∧
      (dayResetB s τ).daily_loss_limit_hit = false ∧
      (dayResetB s τ).current_day = some (dayOfB τ) := by
  unfold dayResetB
  rw [if_pos h]
  exact ⟨rfl, rfl, rfl⟩

end BreakerLemmas

section TimeExitLemmas

/-- Backtest time exit: at or past 90 minutes with ROI inside the
stagnation band, and with the stop check failing, the position closes with
TIME_EXIT. -/
theorem evalTradeB_time_exit (t : TradeB) (p : ℚ) (n : ℤ)
    (hstop : ¬ p ≤ (trailingB (hardFloorB (updateAthB t p)
      (n - t.entry_time))).stop_loss_price)
    (hm : n - t.entry_time ≥ 90)
    (hlo : -(10/100) ≤ (p - t.entry_price) / t.entry_price)
    (hhi : (p - t.entry_price) / t.entry_price ≤ 20/100) :
    (evalTradeB t p n).trade.status = Status.CLOSED ∧
      (evalTradeB t p n).trade.exit_reason = some ExitReason.TIME_EXIT := by
  have hE : (trailingB (hardFloorB (updateAthB t p) (n - t.entry_time))).entry_price
      = t.entry_price := by
    rw [trailingB_entry, hardFloorB_entry, updateAthB_entry]
  unfold evalTradeB
  dsimp only
  rw [if_neg hstop, hE, if_pos ⟨hm, hlo, hhi⟩]
  exact ⟨closeTradeB_status _ _ _ _, closeTradeB_reason _ _ _ _⟩

/-- Paper time exit: strictly past 90 minutes, stagnating, and not stopped
out, the position closes with TIME_EXIT_STAGNANT. -/
theorem evalTradeP_time_exit (t : TradeP) (mc now : ℚ)
    (hloss : ¬ lossPctP (peakUpdateP t mc) mc ≥ 30/100)
    (hdur : now - t.entry_time > 90)
    (hpct : pctUsedP (peakUpdateP t mc) mc < 30/100) :
    (evalTradeP t mc now).trade.status = Status.CLOSED ∧
      (evalTradeP t mc now).trade.exit_reason =
        some ExitReason.TIME_EXIT_STAGNANT := by
  have htm : (peakUpdateP t mc).entry_time = t.entry_time := peakUpdateP_time t mc
  unfold evalTradeP
  dsimp only
  rw [if_neg hloss, htm, if_pos ⟨hdur, hpct⟩]
  exact ⟨closeTradeP_status _ _ _ _, closeTradeP_reason _ _ _ _⟩

theorem partialCloseP_reason (t : TradeP) (mc : ℚ) (pct : ℚ) :
    (partialCloseP t pct mc).trade.exit_reason = t.exit_reason := rfl

theorem tpStepP_reason (t : TradeP) (mc : ℚ) (pct_used thr frac : ℚ) (label : String) :
    (tpStepP t pct_used thr frac mc label).trade.exit_reason = t.exit_reason := by
  unfold tpStepP; split_ifs <;> rfl

theorem peakUpdateP_reason (t : TradeP) (mc : ℚ) :
    (peakUpdateP t mc).exit_reason = t.exit_reason := by
  unfold peakUpdateP; split_ifs <;> rfl

/-- The paper trader never records a stagnation time exit at or before 90
minutes elapsed: the check is strict. -/
theorem evalTradeP_no_time_exit_at_90 (t : TradeP) (mc now : ℚ)
    (h0 : t.exit_reason = none) (h : now - t.entry_time ≤ 90) :
    (evalTradeP t mc now).trade.exit_reason ≠ some ExitReason.TIME_EXIT_STAGNANT := by
  have htm : (peakUpdateP t mc).entry_time = t.entry_time := peakUpdateP_time t mc
  unfold evalTradeP
  dsimp only
  split_ifs with h1 h2
  · rw [closeTradeP_reason]
    simp
  · rw [htm] at h2
    exact absurd h2.1 (not_lt.mpr h)
  · rw [tpStepP_reason, tpStepP_reason, tpStepP_reason, peakUpdateP_reason, h0]
    simp

end TimeExitLemmas

/-- The equity sample appended by one loop step: its equity is the cash
after exits plus the mark-to-market of the then-active positions over the
price samples present at that minute — both taken before this step's signal
admissions — while its capital field is the post-admission cash. -/
theorem stepB_equity_sample (s : EngineState) (t : ℤ) (pd : PriceData)
    (sigs : List SignalB) :
    ((stepB s t pd sigs).1.equity_curve).getLast? =
      some { time := t
             equity := (updateTradesB (dayResetB s t) t pd).capital +
               mtmB (updateTradesB (dayResetB s t) t pd).active_trades t pd
             capital := (stepB s t pd sigs).1.capital } := by
  unfold stepB
  dsimp only
  rw [List.getLast?_concat]
  rw [admitSignalsB_equity]

/-- The initial stop of a freshly created backtest position is 15% below
entry, i.e. exactly 85% of the entry price. -/
theorem processSignalB_creates_stop (s : EngineState) (sig : SignalB) (tr : TradeB)
    (h : (processSignalB s sig).2 = some tr) :
    tr.stop_loss_price = sig.price_at_signal * (1 - 15/100) ∧
      tr.entry_price = sig.price_at_signal ∧ tr.status = Status.OPEN := by
  by_cases h1 : sig.signal_score < 80
  · rw [processSignalB_score_lt s sig h1] at h
    exact absurd h (by simp)
  by_cases h2 : 4 ≤ s.active_trades.length
  · rw [processSignalB_full s sig h2] at h
    exact absurd h (by simp)
  by_cases h3 : s.daily_loss_limit_hit
  · rw [processSignalB_tripped s sig h3] at h
    exact absurd h (by simp)
  unfold processSignalB at h
  rw [if_neg h1, if_neg (by simpa using h2), if_neg (by simpa using h3)] at h
  dsimp only at h
  injection h with h
  subst h
  exact ⟨rfl, rfl, rfl⟩

/-- C9: in backtest mode, a signal with composite score below 80 is
rejected before any other check — no Trade is created and the engine state
(capital, active_trades, the trade log, everything) is left unchanged. -/
theorem c9_low_score_rejected (s : EngineState) (sig : SignalB)
    (h : sig.signal_score < 80) :
    processSignalB s sig = (s, none) :=
  processSignalB_score_lt s sig h

theorem c9_low_score_rejected_witness :
    (79 : ℚ) < 80 ∧
      processSignalB (initB 200)
        { token_address := "A", symbol := "A", signal_time := 0,
          signal_score := 79, price_at_signal := 1 } = (initB 200, none) :=
  ⟨by norm_num,
   c9_low_score_rejected (initB 200)
     { token_address := "A", symbol := "A", signal_time := 0,
       signal_score := 79, price_at_signal := 1 } (by norm_num)⟩

/-- C4: over a backtest position's whole lifetime — any sequence of
exit-rule evaluations, covering the post-15-minute hard floor, the trailing
stop, and the TP1 move to entry — the stop level never decreases, and the
same holds for every single evaluation step. -/
theorem c4_stop_monotone :
    (∀ (t : TradeB) (steps : List (ℚ × ℤ)),
      t.stop_loss_price ≤ (lifetimeB t steps).1.stop_loss_price) ∧
    (∀ (t : TradeB) (p : ℚ) (n : ℤ),
      t.stop_loss_price ≤ (evalTradeB t p n).trade.stop_loss_price) :=
  ⟨lifetimeB_stop_ge, evalTradeB_stop_ge⟩

/-- C2: for every position, remaining units plus everything sold equals the
initial units at all times, remaining units are 0 once CLOSED, and every
partial close sells its fraction of the initial units capped at the units
still held — in both backtest and paper modes. -/
theorem c2_unit_conservation :
    (∀ (t : TradeB) (steps : List (ℚ × ℤ)),
      t.status = Status.OPEN → t.current_units = initialUnitsB t →
      (lifetimeB t steps).1.current_units + (lifetimeB t steps).2 = initialUnitsB t ∧
      ((lifetimeB t steps).1.status = Status.CLOSED →
        (lifetimeB t steps).1.current_units = 0) ∧
      initialUnitsB (lifetimeB t steps).1 = initialUnitsB t) ∧
    (∀ (t : TradeB) (pct p : ℚ),
      (partialCloseB t pct p).sold =
        if initialUnitsB t * pct > t.current_units then t.current_units
        else initialUnitsB t * pct) ∧
    (∀ (t : TradeP) (steps : List (ℚ × ℚ)),
      t.status = Status.OPEN → t.current_units = t.initial_units →
      (lifetimeP t steps).1.current_units + (lifetimeP t steps).2 = t.initial_units ∧
      ((lifetimeP t steps).1.status = Status.CLOSED →
        (lifetimeP t steps).1.current_units = 0) ∧
      (lifetimeP t steps).1.initial_units = t.initial_units) ∧
    (∀ (t : TradeP) (pct mc : ℚ),
      (partialCloseP t pct mc).sold =
        if t.initial_units * pct > t.current_units then t.current_units
        else t.initial_units * pct) := by
  refine ⟨?_, ?_, ?_, ?_⟩
  · intro t steps hopen hfresh
    refine ⟨?_, ?_, ?_⟩
    · rw [lifetimeB_units, hfresh]
    · exact lifetimeB_closed_units t steps (fun hc => absurd (hopen ▸ hc) (by simp))
    · unfold initialUnitsB
      rw [lifetimeB_size, lifetimeB_entry]
  · intro t pct p
    exact partialCloseB_sold t p pct
  · intro t steps hopen hfresh
    refine ⟨?_, ?_, ?_⟩
    · rw [lifetimeP_units, hfresh]
    · exact lifetimeP_closed_units t steps (fun hc => absurd (hopen ▸ hc) (by simp))
    · exact lifetimeP_initial t steps
  · intro t pct mc
    exact partialCloseP_sold t mc pct

/-- A fresh backtest trade used to instantiate lifetime claims. -/
def tFreshB : TradeB :=
  { token_address := "A", entry_price := 1, entry_time := 0, position_size_usd := 10,
    entry_score := 90, current_units := 10, realized_pnl := 0, status := Status.OPEN,
    ath_price := 1, stop_loss_price := 85/100, tp1_hit := false, tp2_hit := false,
    tp3_hit := false, exit_reason := none, exit_time := none }

/-- A fresh paper trade used to instantiate lifetime claims. -/
def tFreshP : TradeP :=
  { token_address := "A", symbol := "A", entry_mc := 1000000,
    entry_price_proxy := 1, entry_time := 0, position_size_usd := 10,
    initial_units := 10, current_units := 10, base_potential := 2,
    peak_mc := 1000000, status := Status.OPEN, tp_levels_hit := [],
    realized_pnl := 0, exit_reason := none, exit_time := none }

theorem c2_unit_conservation_witness :
    (tFreshB.status = Status.OPEN ∧ tFreshB.current_units = initialUnitsB tFreshB) ∧
    ((lifetimeB tFreshB [((3:ℚ), (5:ℤ))]).1.current_units +
        (lifetimeB tFreshB [((3:ℚ), (5:ℤ))]).2 = initialUnitsB tFreshB) ∧
    (tFreshP.status = Status.OPEN ∧ tFreshP.current_units = tFreshP.initial_units) ∧
    ((lifetimeP tFreshP [((1500000:ℚ), (5:ℚ))]).1.current_units +
        (lifetimeP tFreshP [((1500000:ℚ), (5:ℚ))]).2 = tFreshP.initial_units) := by
  have hb1 : tFreshB.status = Status.OPEN := rfl
  have hb2 : tFreshB.current_units = initialUnitsB tFreshB := by
    norm_num [tFreshB, initialUnitsB]
  have hp1 : tFreshP.status = Status.OPEN := rfl
  have hp2 : tFreshP.current_units = tFreshP.initial_units := rfl
  exact ⟨⟨hb1, hb2⟩,
    (c2_unit_conservation.1 tFreshB [((3:ℚ), (5:ℤ))] hb1 hb2).1,
    ⟨hp1, hp2⟩,
    (c2_unit_conservation.2.2.1 tFreshP [((1500000:ℚ), (5:ℚ))] hp1 hp2).1⟩

/-- C6: re-evaluating the exit rules with unchanged current value and time
is a no-op once the first evaluation left the position open — no tier fires
twice and remaining units, realized pnl and the hit-tier flags are all
unchanged — in both backtest and paper modes. -/
theorem c6_idempotent :
    (∀ (t : TradeB) (p : ℚ) (n : ℤ), 0 < t.entry_price →
      (evalTradeB t p n).trade.status = Status.OPEN →
      evalTradeB (evalTradeB t p n).trade p n =
        { trade := (evalTradeB t p n).trade, proceeds := 0, sold := 0 }) ∧
    (∀ (t : TradeP) (mc now : ℚ),
      (evalTradeP t mc now).trade.status = Status.OPEN →
      evalTradeP (evalTradeP t mc now).trade mc now =
        { trade := (evalTradeP t mc now).trade, proceeds := 0, sold := 0 }) :=
  ⟨fun t p n he h => evalTradeB_idem t p n he h,
   fun t mc now h => evalTradeP_idem t mc now h⟩

theorem c6_idempotent_witness :
    ((0:ℚ) < tFreshB.entry_price ∧
      (evalTradeB tFreshB 1 1).trade.status = Status.OPEN ∧
      evalTradeB (evalTradeB tFreshB 1 1).trade 1 1 =
        { trade := (evalTradeB tFreshB 1 1).trade, proceeds := 0, sold := 0 }) ∧
    ((evalTradeP tFreshP 1000000 1).trade.status = Status.OPEN ∧
      evalTradeP (evalTradeP tFreshP 1000000 1).trade 1000000 1 =
        { trade := (evalTradeP tFreshP 1000000 1).trade, proceeds := 0, sold := 0 }) := by
  have he : (0:ℚ) < tFreshB.entry_price := by norm_num [tFreshB]
  have hob : (evalTradeB tFreshB 1 1).trade.status = Status.OPEN := by
    norm_num [evalTradeB, updateAthB, hardFloorB, trailingB, tp1StepB, tp2StepB,
      tp3StepB, tFreshB]
  have hop : (evalTradeP tFreshP 1000000 1).trade.status = Status.OPEN := by
    norm_num [evalTradeP, peakUpdateP, pctUsedP, lossPctP, tpStepP, tFreshP]
  exact ⟨⟨he, hob, c6_idempotent.1 tFreshB 1 1 he hob⟩,
    ⟨hop, c6_idempotent.2 tFreshP 1000000 1 hop⟩⟩

/-- C1: starting from positive initial capital, the cash balance of both
engines is never negative after any sequence of process_signal and
price-update calls, provided signals carry positive reference values and
price updates nonnegative samples; sizing never debits more than the
available cash and every partial or full close only credits cash. -/
theorem c1_cash_never_negative :
    (∀ (c : ℚ) (ops : List OpB), 0 < c → (∀ op ∈ ops, OpBValid op) →
      0 ≤ (applyOpsB (initB c) ops).capital) ∧
    (∀ (c : ℚ) (ops : List OpP), 0 < c → (∀ op ∈ ops, OpPValid op) →
      0 ≤ (applyOpsP (initP c) ops).capital) := by
  constructor
  · intro c ops hc hops
    exact (applyOpsB_inv (initB c) ops
      ⟨le_of_lt hc, by intro u hu; exact absurd hu (by simp [initB])⟩ hops).1
  · intro c ops hc hops
    exact (applyOpsP_inv (initP c) ops
      ⟨le_of_lt hc, by intro u hu; exact absurd hu (by simp [initP])⟩ hops).1

/-- Concrete operation lists instantiating C1. -/
def sigC1 : SignalB :=
  { token_address := "A", symbol := "A", signal_time := 0,
    signal_score := 90, price_at_signal := 1 }

def sigC1P : SignalP :=
  { token_address := "A", symbol := "A", price_usd := 1, mc := 1000000 }

def opsC1B : List OpB :=
  [OpB.signal sigC1, OpB.priceUpdate 1 [("A", [((1:ℤ), (1/100:ℚ))])]]

def opsC1P : List OpP :=
  [OpP.signal sigC1P 0, OpP.mcUpdate [("A", (500000:ℚ))] 30]

theorem c1_cash_never_negative_witness :
    ((0:ℚ) < 200 ∧ 0 ≤ (applyOpsB (initB 200) opsC1B).capital) ∧
    ((0:ℚ) < 200 ∧ 0 ≤ (applyOpsP (initP 200) opsC1P).capital) := by
  constructor
  · refine ⟨by norm_num, c1_cash_never_negative.1 200 opsC1B (by norm_num) ?_⟩
    intro op hop
    rcases List.mem_cons.mp hop with rfl | hop
    · norm_num [OpBValid, sigC1]
    · rcases List.mem_cons.mp hop with rfl | hop
      · intro e he q hq
        rcases List.mem_singleton.mp he with rfl
        rcases List.mem_singleton.mp hq with rfl
        norm_num
      · exact absurd hop (by simp)
  · refine ⟨by norm_num, c1_cash_never_negative.2 200 opsC1P (by norm_num) ?_⟩
    intro op hop
    rcases List.mem_cons.mp hop with rfl | hop
    · constructor <;> norm_num [sigC1P]
    · rcases List.mem_cons.mp hop with rfl | hop
      · intro e he
        rcases List.mem_singleton.mp he with rfl
        norm_num
      · exact absurd hop (by simp)

/-- C10: in backtest mode a position's stop stays at or above 85% of entry
for its whole lifetime (the initial 15% stop), so the post-15-minute hard
floor toward 70% of entry never modifies the stop, and any evaluated tick
whose price is at or below 85% of entry closes the position with
STOP_LOSS. -/
theorem c10_stop_floor :
    (∀ (s : EngineState) (sig : SignalB) (tr : TradeB),
      (processSignalB s sig).2 = some tr → stopInvB tr) ∧
    (∀ (t : TradeB) (steps : List (ℚ × ℤ)),
      stopInvB t → stopInvB (lifetimeB t steps).1) ∧
    (∀ (t : TradeB) (mi : ℤ), stopInvB t → 0 < t.entry_price →
      hardFloorB t mi = t) ∧
    (∀ (t : TradeB) (p : ℚ) (n : ℤ), stopInvB t →
      p ≤ t.entry_price * (85/100) →
      (evalTradeB t p n).trade.status = Status.CLOSED ∧
        (evalTradeB t p n).trade.exit_reason = some ExitReason.STOP_LOSS) := by
  refine ⟨?_, lifetimeB_stopInv, hardFloorB_noop_of_stopInv, evalTradeB_stop_hit⟩
  intro s sig tr h
  obtain ⟨hstop, hentry, _⟩ := processSignalB_creates_stop s sig tr h
  unfold stopInvB
  rw [hstop, hentry]
  linarith

/-- The position created from a score-90 signal at price 1 on a fresh
200-capital engine. -/
def tradeC10 : TradeB :=
  { token_address := "A", entry_price := 1, entry_time := 0,
    position_size_usd := 100/3, entry_score := 90, current_units := 100/3,
    realized_pnl := 0, status := Status.OPEN, ath_price := 1,
    stop_loss_price := 85/100, tp1_hit := false, tp2_hit := false,
    tp3_hit := false, exit_reason := none, exit_time := none }

theorem c10_stop_floor_witness :
    ((processSignalB (initB 200)
        { token_address := "A", symbol := "A", signal_time := 0,
          signal_score := 90, price_at_signal := 1 }).2 = some tradeC10 ∧
      stopInvB tradeC10) ∧
    (stopInvB tFreshB ∧ (0:ℚ) < tFreshB.entry_price ∧
      hardFloorB tFreshB 20 = tFreshB) ∧
    ((4/5 : ℚ) ≤ tFreshB.entry_price * (85/100) ∧
      (evalTradeB tFreshB (4/5) 20).trade.status = Status.CLOSED ∧
      (evalTradeB tFreshB (4/5) 20).trade.exit_reason = some ExitReason.STOP_LOSS) := by
  have hcreate : (processSignalB (initB 200)
      { token_address := "A", symbol := "A", signal_time := 0,
        signal_score := 90, price_at_signal := 1 }).2 = some tradeC10 := by
    norm_num [processSignalB, initB, tradeC10]
  have hinv : stopInvB tFreshB := by
    norm_num [stopInvB, tFreshB]
  have hen : (0:ℚ) < tFreshB.entry_price := by norm_num [tFreshB]
  have hple : (4/5 : ℚ) ≤ tFreshB.entry_price * (85/100) := by norm_num [tFreshB]
  exact ⟨⟨hcreate, c10_stop_floor.1 _ _ _ hcreate⟩,
    ⟨hinv, hen, c10_stop_floor.2.2.1 tFreshB 20 hinv hen⟩,
    ⟨hple, c10_stop_floor.2.2.2 tFreshB (4/5) 20 hinv hple⟩⟩

/-- C8 counterexample: a paper position evaluated at exactly 90 minutes
elapsed, squarely inside the stagnation band, is NOT closed — the paper
check is strict (`duration_mins > 90`), so the claim that the close fires
at exactly 90 minutes is false for paper mode. -/
theorem c8_counterexample :
    (90:ℚ) - tFreshP.entry_time = 90 ∧
    pctUsedP (peakUpdateP tFreshP 1000000) 1000000 < 30/100 ∧
    lossPctP (peakUpdateP tFreshP 1000000) 1000000 < 30/100 ∧
    (evalTradeP tFreshP 1000000 90).trade.status = Status.OPEN ∧
    (evalTradeP tFreshP 1000000 90).trade.exit_reason = none := by
  norm_num [evalTradeP, peakUpdateP, pctUsedP, lossPctP, tpStepP, tFreshP]

/-- C8 (amended): the backtest closes with TIME_EXIT when elapsed ≥ 90
minutes (so in particular at exactly 90) with ROI in [-0.10, 0.20] and no
stop close; the paper trader closes with TIME_EXIT_STAGNANT only when
elapsed is STRICTLY greater than 90 minutes with potential_used < 0.30 and
no 30% stop; at or before exactly 90 minutes the paper trader never
records a stagnation exit. -/
theorem c8_time_exit_amended :
    (∀ (t : TradeB) (p : ℚ) (n : ℤ),
      ¬ p ≤ (trailingB (hardFloorB (updateAthB t p)
        (n - t.entry_time))).stop_loss_price →
      n - t.entry_time ≥ 90 →
      -(10/100) ≤ (p - t.entry_price) / t.entry_price →
      (p - t.entry_price) / t.entry_price ≤ 20/100 →
      (evalTradeB t p n).trade.status = Status.CLOSED ∧
        (evalTradeB t p n).trade.exit_reason = some ExitReason.TIME_EXIT) ∧
    (∀ (t : TradeP) (mc now : ℚ),
      ¬ lossPctP (peakUpdateP t mc) mc ≥ 30/100 →
      now - t.entry_time > 90 →
      pctUsedP (peakUpdateP t mc) mc < 30/100 →
      (evalTradeP t mc now).trade.status = Status.CLOSED ∧
        (evalTradeP t mc now).trade.exit_reason =
          some ExitReason.TIME_EXIT_STAGNANT) ∧
    (∀ (t : TradeP) (mc now : ℚ), t.exit_reason = none →
      now - t.entry_time ≤ 90 →
      (evalTradeP t mc now).trade.exit_reason ≠
        some ExitReason.TIME_EXIT_STAGNANT) :=
  ⟨evalTradeB_time_exit, evalTradeP_time_exit, evalTradeP_no_time_exit_at_90⟩

theorem c8_time_exit_amended_witness :
    ((90:ℤ) - tFreshB.entry_time = 90 ∧
      (evalTradeB tFreshB 1 90).trade.status = Status.CLOSED ∧
      (evalTradeB tFreshB 1 90).trade.exit_reason = some ExitReason.TIME_EXIT) ∧
    ((evalTradeP tFreshP 1000000 91).trade.status = Status.CLOSED ∧
      (evalTradeP tFreshP 1000000 91).trade.exit_reason =
        some ExitReason.TIME_EXIT_STAGNANT) ∧
    ((evalTradeP tFreshP 1000000 90).trade.exit_reason ≠
      some ExitReason.TIME_EXIT_STAGNANT) := by
  have hstop : ¬ (1:ℚ) ≤ (trailingB (hardFloorB (updateAthB tFreshB 1)
      ((90:ℤ) - tFreshB.entry_time))).stop_loss_price := by
    norm_num [trailingB, hardFloorB, updateAthB, tFreshB]
  have hb := c8_time_exit_amended.1 tFreshB 1 90 hstop
    (by norm_num [tFreshB]) (by norm_num [tFreshB]) (by norm_num [tFreshB])
  have hp := c8_time_exit_amended.2.1 tFreshP 1000000 91
    (by norm_num [lossPctP, peakUpdateP, tFreshP])
    (by norm_num [tFreshP])
    (by norm_num [pctUsedP, peakUpdateP, tFreshP])
  have hs := c8_time_exit_amended.2.2 tFreshP 1000000 90 rfl
    (by norm_num [tFreshP])
  exact ⟨⟨by norm_num [tFreshB], hb.1, hb.2⟩, ⟨hp.1, hp.2⟩, hs⟩

/-- The zero-price DexScreener pair of the C7 counterexample. -/
def sigC7 : SignalP :=
  { token_address := "Z", symbol := "Z", price_usd := 0, mc := 1000000 }

/-- C7 counterexample: the paper trader does NOT reject a signal whose
reference price is zero — it creates a position with zero units and still
debits 5% of cash, refuting the claimed InvalidSignal rejection. -/
theorem c7_counterexample :
    sigC7.price_usd = 0 ∧
    (processSignalP (initP 200) sigC7 0).2 ≠ none ∧
    (processSignalP (initP 200) sigC7 0).1.capital = 190 ∧
    ((processSignalP (initP 200) sigC7 0).2.map (fun t => t.current_units))
      = some 0 ∧
    (processSignalP (initP 200) sigC7 0).1.active_trades.length = 1 := by
  refine ⟨rfl, ?_, ?_, ?_, ?_⟩
  · norm_num [processSignalP, initP, sigC7]
    simp
  · norm_num [processSignalP, initP, sigC7]
  · norm_num [processSignalP, initP, sigC7]
  · norm_num [processSignalP, initP, sigC7]

/-- C7 (amended): the paper trader rejects exactly when the active set is
full or cash ≤ 0; the backtest engine rejects exactly when score < 80, the
active set is full, or the daily breaker is tripped; every rejection
leaves the state unchanged; the debited size never exceeds available cash.
Neither engine rejects a non-positive reference value or a zero computed
size. -/
theorem c7_admission_amended :
    (∀ (sp : PaperState) (sg : SignalP) (now : ℚ),
      (processSignalP sp sg now).2 = none ↔
        (4 ≤ sp.active_trades.length ∨ sp.capital ≤ 0)) ∧
    (∀ (sp : PaperState) (sg : SignalP) (now : ℚ),
      (processSignalP sp sg now).2 = none → (processSignalP sp sg now).1 = sp) ∧
    (∀ (s : EngineState) (sig : SignalB),
      (processSignalB s sig).2 = none ↔
        (sig.signal_score < 80 ∨ 4 ≤ s.active_trades.length ∨
          s.daily_loss_limit_hit = true)) ∧
    (∀ (s : EngineState) (sig : SignalB),
      (processSignalB s sig).2 = none → (processSignalB s sig).1 = s) ∧
    (∀ (s : EngineState) (sig : SignalB) (tr : TradeB),
      (processSignalB s sig).2 = some tr → tr.position_size_usd ≤ s.capital) :=
  ⟨processSignalP_none_iff, processSignalP_state_of_none, processSignalB_none_iff,
   processSignalB_state_of_none, processSignalB_size_le⟩

theorem c7_admission_amended_witness :
    ((processSignalP (initP 0) sigC1P 5).2 = none ∧
      (processSignalP (initP 0) sigC1P 5).1 = initP 0) ∧
    ((processSignalB (initB 200) sigC1).2 = some tradeC10 ∧
      tradeC10.position_size_usd ≤ (initB 200).capital) := by
  have hnone : (processSignalP (initP 0) sigC1P 5).2 = none :=
    (c7_admission_amended.1 (initP 0) sigC1P 5).mpr (Or.inr (by norm_num [initP]))
  have hsome : (processSignalB (initB 200) sigC1).2 = some tradeC10 := by
    norm_num [processSignalB, initB, sigC1, tradeC10]
  exact ⟨⟨hnone, c7_admission_amended.2.1 _ _ _ hnone⟩,
    ⟨hsome, c7_admission_amended.2.2.2.2 _ _ _ hsome⟩⟩

/-- Inputs of the C3 counterexample: one signal priced 1 while the price
path samples 2 at the same minute. -/
def sigC3 : SignalB :=
  { token_address := "A", symbol := "A", signal_time := 0,
    signal_score := 90, price_at_signal := 1 }

def pdC3 : PriceData := [("A", [((0:ℤ), (2:ℚ))])]

/-- Engine state after the day reset of the first loop step. -/
def S1C3 : EngineState :=
  { capital := 200, equity := 200, daily_start_equity := 200, current_day := some 0,
    daily_loss_limit_hit := false, active_trades := [], closed_trades := [],
    equity_curve := [], n_opened := 0 }

/-- Engine state after admitting the signal, before the sample append. -/
def S2C3 : EngineState :=
  { capital := 500/3, equity := 200, daily_start_equity := 200, current_day := some 0,
    daily_loss_limit_hit := false, active_trades := [tradeC10], closed_trades := [],
    equity_curve := [], n_opened := 1 }

/-- Final engine state of the C3 one-minute run. -/
def SC3 : EngineState :=
  { capital := 500/3, equity := 200, daily_start_equity := 200, current_day := some 0,
    daily_loss_limit_hit := false, active_trades := [tradeC10], closed_trades := [],
    equity_curve := [{ time := 0, equity := 200, capital := 500/3 }], n_opened := 1 }

theorem stepC3 : stepB (initB 200) 0 pdC3 [sigC3] = (SC3, []) := by
  have h1 : dayResetB (initB 200) 0 = S1C3 := by
    norm_num [dayResetB, initB, dayOfB, S1C3]
  have h2 : updateTradesB S1C3 0 pdC3 = S1C3 := by
    norm_num [updateTradesB, S1C3]
  have h3 : mtmB S1C3.active_trades 0 pdC3 = (0:ℚ) := by
    norm_num [mtmB, S1C3]
  have hA : admitSignalsB
      { capital := S1C3.capital, equity := S1C3.capital,
        daily_start_equity := S1C3.daily_start_equity,
        current_day := S1C3.current_day,
        daily_loss_limit_hit := S1C3.daily_loss_limit_hit,
        active_trades := S1C3.active_trades, closed_trades := S1C3.closed_trades,
        equity_curve := S1C3.equity_curve, n_opened := S1C3.n_opened }
      [sigC3] 0 = (S2C3, []) := by
    norm_num [admitSignalsB, processSignalB, S1C3, S2C3, sigC3, tradeC10]
  norm_num [stepB, h1, h2, h3, hA, S2C3, SC3, tradeC10]

/-- C3 counterexample: at the step where the signal is admitted, the
appended equity sample reads equity 200 while cash plus mark-to-market of
the active position at that minute's sampled price is 700/3 ≈ 233.33 — the
recorded equity is computed before admission and ignores the new position's
price. -/
theorem c3_counterexample :
    runB 200 [sigC3] pdC3 = some SC3 ∧
    SC3.equity_curve = [{ time := 0, equity := 200, capital := 500/3 }] ∧
    SC3.capital + mtmB SC3.active_trades 0 pdC3 = 700/3 ∧
    (200 : ℚ) ≠ 700/3 := by
  have hrun : runAuxB 1 (initB 200) [sigC3] 0 0 pdC3 = SC3 := by
    show runAuxB (0+1) (initB 200) [sigC3] 0 0 pdC3 = SC3
    rw [runAuxB]
    norm_num [stepC3, runAuxB]
  have hATB : allTimesB pdC3 = [(0:ℤ)] := by norm_num [allTimesB, pdC3]
  refine ⟨?_, rfl, ?_, by norm_num⟩
  · norm_num [runB, hATB, sortSignals, insertByTime, hrun]
  · norm_num [mtmB, SC3, tradeC10, priceLookup, findPath, priceAt, pdC3]

/-- C3 (amended): the equity sample appended at each loop step records as
equity the post-exit cash plus the mark-to-market of the positions active
before this step's signal admissions, summed only over positions with a
price sample at that minute; the sample's capital field is the
post-admission cash, so equity ignores admissions and unsampled positions
at that step. -/
theorem c3_equity_sample_amended (s : EngineState) (t : ℤ) (pd : PriceData)
    (sigs : List SignalB) :
    ((stepB s t pd sigs).1.equity_curve).getLast? =
      some { time := t
             equity := (updateTradesB (dayResetB s t) t pd).capital +
               mtmB (updateTradesB (dayResetB s t) t pd).active_trades t pd
             capital := (stepB s t pd sigs).1.capital } :=
  stepB_equity_sample s t pd sigs

/-- Inputs of the C5 counterexample: the price crashes to 0.01 at minute 1,
and a second signal arrives in that same minute. -/
def sig5b : SignalB :=
  { token_address := "A", symbol := "A2", signal_time := 1,
    signal_score := 90, price_at_signal := 1 }

def pdC5 : PriceData := [("A", [((0:ℤ), (1:ℚ)), ((1:ℤ), (1/100:ℚ))])]

/-- State after step 0 of the C5 run (identical content to SC3). -/
def T5a : EngineState :=
  { capital := 500/3, equity := 200, daily_start_equity := 200, current_day := some 0,
    daily_loss_limit_hit := false, active_trades := [tradeC10], closed_trades := [],
    equity_curve := [{ time := 0, equity := 200, capital := 500/3 }], n_opened := 1 }

/-- The first position after its stop-loss close at price 0.01. -/
def trade5closed : TradeB :=
  { token_address := "A", entry_price := 1, entry_time := 0,
    position_size_usd := 100/3, entry_score := 90, current_units := 0,
    realized_pnl := -33, status := Status.CLOSED, ath_price := 1,
    stop_loss_price := 85/100, tp1_hit := false, tp2_hit := false,
    tp3_hit := false, exit_reason := some ExitReason.STOP_LOSS,
    exit_time := some 1 }

/-- State after `_update_trades` of step 1: the crash closed the position
and the breaker flag is still false. -/
def T5mid : EngineState :=
  { capital := 167, equity := 200, daily_start_equity := 200, current_day := some 0,
    daily_loss_limit_hit := false, active_trades := [],
    closed_trades := [trade5closed],
    equity_curve := [{ time := 0, equity := 200, capital := 500/3 }], n_opened := 1 }

/-- The second position, admitted at minute 1 right after the crash. -/
def trade5b : TradeB :=
  { token_address := "A", entry_price := 1, entry_time := 1,
    position_size_usd := 167/6, entry_score := 90, current_units := 167/6,
    realized_pnl := 0, status := Status.OPEN, ath_price := 1,
    stop_loss_price := 85/100, tp1_hit := false, tp2_hit := false,
    tp3_hit := false, exit_reason := none, exit_time := none }

/-- Step-1 state after admission, before the sample append. -/
def S5pre : EngineState :=
  { capital := 835/6, equity := 167, daily_start_equity := 200, current_day := some 0,
    daily_loss_limit_hit := false, active_trades := [trade5b],
    closed_trades := [trade5closed],
    equity_curve := [{ time := 0, equity := 200, capital := 500/3 }], n_opened := 2 }

/-- Final state of the C5 two-minute run. -/
def S5fin : EngineState :=
  { capital := 835/6, equity := 167, daily_start_equity := 200, current_day := some 0,
    daily_loss_limit_hit := false, active_trades := [trade5b],
    closed_trades := [trade5closed],
    equity_curve := [{ time := 0, equity := 200, capital := 500/3 },
      { time := 1, equity := 167, capital := 835/6 }], n_opened := 2 }

theorem stepC5a : stepB (initB 200) 0 pdC5 [sigC3, sig5b] = (T5a, [sig5b]) := by
  have h1 : dayResetB (initB 200) 0 = S1C3 := by
    norm_num [dayResetB, initB, dayOfB, S1C3]
  have h2 : updateTradesB S1C3 0 pdC5 = S1C3 := by
    norm_num [updateTradesB, S1C3]
  have h3 : mtmB S1C3.active_trades 0 pdC5 = (0:ℚ) := by
    norm_num [mtmB, S1C3]
  have hA : admitSignalsB
      { capital := S1C3.capital, equity := S1C3.capital,
        daily_start_equity := S1C3.daily_start_equity,
        current_day := S1C3.current_day,
        daily_loss_limit_hit := S1C3.daily_loss_limit_hit,
        active_trades := S1C3.active_trades, closed_trades := S1C3.closed_trades,
        equity_curve := S1C3.equity_curve, n_opened := S1C3.n_opened }
      [sigC3, sig5b] 0 = (S2C3, [sig5b]) := by
    norm_num [admitSignalsB, processSignalB, S1C3, S2C3, sigC3, sig5b, tradeC10]
  norm_num [stepB, h1, h2, h3, hA, S2C3, T5a, tradeC10]

theorem stepC5b : stepB T5a 1 pdC5 [sig5b] = (S5fin, []) := by
  have h1 : dayResetB T5a 1 = T5a := by
    norm_num [dayResetB, dayOfB, T5a]
  have h2 : updateTradesB T5a 1 pdC5 = T5mid := by
    norm_num [updateTradesB, updateOneTradeB, findPath, priceAt, evalTradeB,
      updateAthB, hardFloorB, trailingB, closeTradeB, T5a, T5mid, tradeC10,
      trade5closed, pdC5]
  have h3 : mtmB T5mid.active_trades 1 pdC5 = (0:ℚ) := by
    norm_num [mtmB, T5mid]
  have hA : admitSignalsB
      { capital := T5mid.capital, equity := T5mid.capital,
        daily_start_equity := T5mid.daily_start_equity,
        current_day := T5mid.current_day,
        daily_loss_limit_hit := T5mid.daily_loss_limit_hit,
        active_trades := T5mid.active_trades, closed_trades := T5mid.closed_trades,
        equity_curve := T5mid.equity_curve, n_opened := T5mid.n_opened }
      [sig5b] 1 = (S5pre, []) := by
    norm_num [admitSignalsB, processSignalB, T5mid, S5pre, sig5b, trade5b,
      trade5closed]
  norm_num [stepB, h1, h2, h3, hA, S5pre, S5fin, trade5b, trade5closed]

/-- C5 counterexample: at minute 1 the equity falls to 167, more than 10%
below daily_start_equity 200, yet the breaker flag stays false (the crash
closed the only position, skipping the daily-loss check) and the signal
arriving in that same minute is admitted — a second Trade is created on
the same trading day. -/
theorem c5_counterexample :
    runB 200 [sigC3, sig5b] pdC5 = some S5fin ∧
    S5fin.daily_start_equity = 200 ∧
    S5fin.equity_curve.getLast? =
      some { time := 1, equity := 167, capital := 835/6 } ∧
    (167 : ℚ) - 200 < -(200 * (10/100)) ∧
    S5fin.daily_loss_limit_hit = false ∧
    S5fin.n_opened = 2 ∧
    (∀ tr ∈ S5fin.active_trades, tr.entry_time = 1 ∧ dayOfB 1 = dayOfB 0) := by
  have hrun : runAuxB 2 (initB 200) [sigC3, sig5b] 0 1 pdC5 = S5fin := by
    show runAuxB (1+1) (initB 200) [sigC3, sig5b] 0 1 pdC5 = S5fin
    rw [runAuxB]
    have hn1 : nextTimeB T5a [sig5b] 0 = 1 := by
      norm_num [nextTimeB, T5a]
    have hrest : runAuxB 1 T5a [sig5b] 1 1 pdC5 = S5fin := by
      show runAuxB (0+1) T5a [sig5b] 1 1 pdC5 = S5fin
      rw [runAuxB]
      norm_num [stepC5b, runAuxB]
    norm_num [stepC5a, hn1, hrest]
  have hATB : allTimesB pdC5 = [(0:ℤ), 1] := by norm_num [allTimesB, pdC5]
  refine ⟨?_, rfl, by norm_num [S5fin], by norm_num, rfl, rfl, ?_⟩
  · have hle : sigC3.signal_time ≤ sig5b.signal_time := by norm_num [sigC3, sig5b]
    norm_num [runB, hATB, sortSignals, insertByTime]
    rw [if_pos hle, show Int.toNat 2 = 2 from rfl, hrun]
  · intro tr htr
    rw [show S5fin.active_trades = [trade5b] from rfl] at htr
    rw [List.mem_singleton.mp htr]
    exact ⟨rfl, rfl⟩

/-- C5 (amended): the breaker is evaluated inside `_update_trades` using
the equity computed at the previous step, and only trips when some active
position completes its evaluation without closing; once tripped, every
process_signal is rejected with no Trade created and no state change; a
day rollover resets daily_start_equity to current equity and clears the
flag.  Signals arriving in the same minute as the equity drop — or after a
drop that closed every active position — are still admitted. -/
theorem c5_breaker_amended :
    (∀ (s : EngineState) (sig : SignalB), s.daily_loss_limit_hit = true →
      processSignalB s sig = (s, none)) ∧
    (∀ (s : EngineState) (now : ℤ) (pd : PriceData),
      s.equity - s.daily_start_equity < -(s.daily_start_equity * (10/100)) →
      (∃ t ∈ s.active_trades, completesB pd now t = true) →
      (updateTradesB s now pd).daily_loss_limit_hit = true) ∧
    (∀ (s : EngineState) (τ : ℤ), s.current_day ≠ some (dayOfB τ) →
      (dayResetB s τ).daily_start_equity = s.equity ∧
        (dayResetB s τ).daily_loss_limit_hit = false ∧
        (dayResetB s τ).current_day = some (dayOfB τ)) :=
  ⟨processSignalB_tripped,
   fun s now pd hcond hex => updateTradesB_trips now pd s hcond hex,
   dayResetB_rollover⟩

/-- A tripped state used to instantiate the amended breaker claim. -/
def S5tripped : EngineState :=
  { capital := 100, equity := 150, daily_start_equity := 200, current_day := some 0,
    daily_loss_limit_hit := true, active_trades := [], closed_trades := [],
    equity_curve := [], n_opened := 1 }

/-- A state whose stale equity is 10.5% below the daily start, with one
active position that completes its evaluation. -/
def S5low : EngineState :=
  { capital := 145, equity := 179, daily_start_equity := 200, current_day := some 0,
    daily_loss_limit_hit := false, active_trades := [tradeC10], closed_trades := [],
    equity_curve := [], n_opened := 1 }

theorem c5_breaker_amended_witness :
    (S5tripped.daily_loss_limit_hit = true ∧
      processSignalB S5tripped sigC3 = (S5tripped, none)) ∧
    ((179 : ℚ) - 200 < -(200 * (10/100)) ∧
      completesB [("A", [((5:ℤ), (1:ℚ))])] 5 tradeC10 = true ∧
      (updateTradesB S5low 5 [("A", [((5:ℤ), (1:ℚ))])]).daily_loss_limit_hit
        = true) ∧
    (S5tripped.current_day ≠ some (dayOfB 1440) ∧
      (dayResetB S5tripped 1440).daily_start_equity = S5tripped.equity ∧
      (dayResetB S5tripped 1440).daily_loss_limit_hit = false) := by
  have hcomp : completesB [("A", [((5:ℤ), (1:ℚ))])] 5 tradeC10 = true := by
    norm_num [completesB, priceLookup, findPath, priceAt, evalTradeB, updateAthB,
      hardFloorB, trailingB, tp1StepB, tp2StepB, tp3StepB, tradeC10]
  have hcond : S5low.equity - S5low.daily_start_equity <
      -(S5low.daily_start_equity * (10/100)) := by
    norm_num [S5low]
  have hday : S5tripped.current_day ≠ some (dayOfB 1440) := by
    norm_num [S5tripped, dayOfB]
  have hroll := c5_breaker_amended.2.2 S5tripped 1440 hday
  exact ⟨⟨rfl, c5_breaker_amended.1 S5tripped sigC3 rfl⟩,
    ⟨by norm_num,
     hcomp,
     by
       have := c5_breaker_amended.2.1 S5low 5 [("A", [((5:ℤ), (1:ℚ))])] hcond
         ⟨tradeC10, by norm_num [S5low], hcomp⟩
       simpa [S5low] using this⟩,
    ⟨hday, hroll.1, hroll.2.1⟩⟩

end MemeBot
